import Mathlib

/-!
Verification of the nuxfly CLI (a deployment-automation toolkit for Fly.io).

This file gives a shallow embedding, in Lean 4, of the pure computational
parts of the CLI that the specification makes claims about:

* the `fly.toml` descriptor generator and parser (`src/templates/fly-toml.mjs`),
* the bucket-credentials scraper (`src/utils/buckets.mjs`),
* the flyctl argument builder, in both its historical revisions
  (`src/utils/flyctl.mjs` and `packages/cli/src/utils/flyctl.mjs`),
* the configuration loader and validator (`packages/cli/src/utils/config.mjs`),
* the per-command error-handling (catch) policies of the command handlers,
* the Levenshtein-distance utility used for command suggestions.

JavaScript strings are modelled as `List Char` (`Str`); JavaScript
`undefined`/`null` is modelled with `Option`; thrown exceptions are modelled
with `Except`.  Filesystem contents and process environment variables are
passed explicitly as values.
-/

set_option maxRecDepth 10000

namespace Nuxfly

/-- JavaScript strings are modelled as lists of characters. -/
abbrev Str := List Char

/-- Coercion from Lean string literals to the `Str` model. -/
def s2l (s : String) : Str := s.data

/-! ## Generic JavaScript string operations -/

/-- Whitespace test used by `String.prototype.trim` (ASCII and Unicode space). -/
def isWs (c : Char) : Bool := c.isWhitespace

/-- `s.trimStart()`. -/
def ltrim (s : Str) : Str := s.dropWhile isWs

/-- `s.trimEnd()`. -/
def rtrim (s : Str) : Str := (s.reverse.dropWhile isWs).reverse

/-- `s.trim()`. -/
def trim (s : Str) : Str := rtrim (ltrim s)

/-- `s.split(sep)` for a single-character separator: JavaScript returns one
segment more than the number of separators, so the empty string yields
`[""]`. -/
def jsSplit (sep : Char) : Str → List Str
  | [] => [[]]
  | c :: cs =>
    let r := jsSplit sep cs
    if c = sep then [] :: r else (c :: r.headI) :: r.tail

/-- `s.split(sep, limit)`: JavaScript truncates teh full split to `limit`
segments. -/
def jsSplitLimit (sep : Char) (limit : Nat) (s : Str) : List Str :=
  (jsSplit sep s).take limit

/-- `hay.includes(needle)` (substring containment). -/
def jsIncludes (needle hay : Str) : Bool := decide (needle <:+: hay)

/-- `s.startsWith(p)`. -/
def jsStartsWith (p s : Str) : Bool := p.isPrefixOf s

/-- `s.endsWith(p)`. -/
def jsEndsWith (p s : Str) : Bool := p.reverse.isPrefixOf s.reverse

/-! ## Bucket credential scraping (`src/utils/buckets.mjs`, `parseStorageCreateOutput`)

The function splits stdout into lines, scans each line for one of five
`KEY:` markers, and for a matching line stores
`line.split(':', 2)[1].trim()` into the corresponding field.  It returns the
credentials object only when all five fields are truthy (set and non-empty);
otherwise it returns `null`. -/

/-- A fully populated credentials record (the non-null return value). -/
structure BucketCredentials where
  accessKeyId : Str
  secretAccessKey : Str
  endpointUrl : Str
  region : Str
  bucketName : Str
  deriving DecidableEq, Repr

/-- The partially populated record accumulated while scanning lines
(each field starts out `undefined`). -/
structure BucketCredentialsPartial where
  accessKeyId : Option Str := none
  secretAccessKey : Option Str := none
  endpointUrl : Option Str := none
  region : Option Str := none
  bucketName : Option Str := none
  deriving DecidableEq, Repr

def markerAccessKeyId : Str := s2l "AWS_ACCESS_KEY_ID:"
def markerSecretAccessKey : Str := s2l "AWS_SECRET_ACCESS_KEY:"
def markerEndpointUrl : Str := s2l "AWS_ENDPOINT_URL_S3:"
def markerRegion : Str := s2l "AWS_REGION:"
def markerBucketName : Str := s2l "BUCKET_NAME:"

/-- `line.split(':', 2)[1].trim()`.  When the line has no colon the indexing
yields `undefined` and `.trim()` throws (`none` here); the enclosing
`try/catch` of the source then returns `null`. -/
def extractCredValue (line : Str) : Option Str :=
  match jsSplitLimit ':' 2 line with
  | _ :: v :: _ => some (trim v)
  | _ => none

/-- One step of the line loop.  The state is `none` once the loop has thrown
(dead code in practice, since a line matching a `KEY:` marker always contains
a colon). -/
def credStep (st : Option BucketCredentialsPartial) (line : Str) :
    Option BucketCredentialsPartial :=
  match st with
  | none => none
  | some cr =>
    if jsIncludes markerAccessKeyId line then
      (extractCredValue line).map fun v => { cr with accessKeyId := some v }
    else if jsIncludes markerSecretAccessKey line then
      (extractCredValue line).map fun v => { cr with secretAccessKey := some v }
    else if jsIncludes markerEndpointUrl line then
      (extractCredValue line).map fun v => { cr with endpointUrl := some v }
    else if jsIncludes markerRegion line then
      (extractCredValue line).map fun v => { cr with region := some v }
    else if jsIncludes markerBucketName line then
      (extractCredValue line).map fun v => { cr with bucketName := some v }
    else some cr

/-- The final truthiness check of `parseStorageCreateOutput`:
`if (credentials.accessKeyId && ... && credentials.bucketName) return
credentials; return null` — a field that is unset or the empty string is
falsy. -/
def credFinalize (cr : BucketCredentialsPartial) : Option BucketCredentials :=
  match cr.accessKeyId, cr.secretAccessKey, cr.endpointUrl,
        cr.region, cr.bucketName with
  | some a, some s, some e, some r, some b =>
    if a ≠ [] ∧ s ≠ [] ∧ e ≠ [] ∧ r ≠ [] ∧ b ≠ [] then
      some ⟨a, s, e, r, b⟩
    else none
  | _, _, _, _, _ => none

/-- `parseStorageCreateOutput(output)` from `src/utils/buckets.mjs`. -/
def parseStorageCreateOutput (output : Str) : Option BucketCredentials :=
  match (jsSplit '\n' output).foldl credStep (some {}) with
  | none => none
  | some cr => credFinalize cr

/-- The five credential markers, indexed in the order of the `else if`
chain of the source. -/
def credMarker : Fin 5 → Str
  | 0 => markerAccessKeyId
  | 1 => markerSecretAccessKey
  | 2 => markerEndpointUrl
  | 3 => markerRegion
  | 4 => markerBucketName

/-- Field accessor for the partial credentials record, by marker index. -/
def credField (k : Fin 5) (cr : BucketCredentialsPartial) : Option Str :=
  match k with
  | 0 => cr.accessKeyId
  | 1 => cr.secretAccessKey
  | 2 => cr.endpointUrl
  | 3 => cr.region
  | 4 => cr.bucketName

/-- Field update for the partial credentials record, by marker index. -/
def credSetField (k : Fin 5) (cr : BucketCredentialsPartial) (v : Option Str) :
    BucketCredentialsPartial :=
  match k with
  | 0 => { cr with accessKeyId := v }
  | 1 => { cr with secretAccessKey := v }
  | 2 => { cr with endpointUrl := v }
  | 3 => { cr with region := v }
  | 4 => { cr with bucketName := v }

/-- Which branch of the `else if` chain a line takes, if any. -/
def credLineMatch (line : Str) : Option (Fin 5) :=
  if jsIncludes markerAccessKeyId line then some 0
  else if jsIncludes markerSecretAccessKey line then some 1
  else if jsIncludes markerEndpointUrl line then some 2
  else if jsIncludes markerRegion line then some 3
  else if jsIncludes markerBucketName line then some 4
  else none

/-- The value a matching line stores (total variant of `extractCredValue`,
used only on lines that are known to contain a colon). -/
def extractedVal (line : Str) : Str :=
  trim ((jsSplitLimit ':' 2 line).getD 1 [])

/-- One step of the line loop, rephrased through `credLineMatch` (shown
equivalent to `credStep` below). -/
def credApply (cr : BucketCredentialsPartial) (line : Str) :
    BucketCredentialsPartial :=
  match credLineMatch line with
  | none => cr
  | some k => credSetField k cr (some (extractedVal line))

/-! ## JavaScript value helpers -/

/-- Truthiness of a JavaScript string-or-undefined value: `undefined`,
`null` and the empty string are falsy. -/
def jsTruthyStr (o : Option Str) : Bool := o.elim false (fun s => !s.isEmpty)

/-- `a || b` on string-or-undefined values. -/
def jsOrStr (a b : Option Str) : Option Str := if jsTruthyStr a then a else b

/-- A JavaScript numeric value as it can appear in the descriptor records:
a finite integer, `NaN` (e.g. from a failed `parseInt`), or `undefined`. -/
inductive JsNum where
  | int (n : Int)
  | nan
  | undef
  deriving DecidableEq, Repr

/-- Decimal rendering of a natural number (JS template-literal printing). -/
def natToStr (n : Nat) : Str :=
  if n = 0 then s2l "0"
  else (Nat.digits 10 n).reverse.map (fun d => Char.ofNat (48 + d))

/-- Decimal rendering of an integer. -/
def intToStr (n : Int) : Str :=
  if n < 0 then '-' :: natToStr (-n).toNat else natToStr n.toNat

/-- Template-literal rendering `${v}` of a numeric value. -/
def jsNumToStr : JsNum → Str
  | .int n => intToStr n
  | .nan => s2l "NaN"
  | .undef => s2l "undefined"

/-- Maximal leading run of decimal digits, as a number. -/
def parseDigits (s : Str) : Option Nat :=
  let ds := s.takeWhile Char.isDigit
  if ds = [] then none
  else some (ds.foldl (fun a c => 10 * a + (c.toNat - 48)) 0)

/-- `parseInt(s, 10)`: skip leading whitespace, optional sign, then a
maximal digit run; `NaN` when no digits follow. -/
def jsParseInt (s : Str) : JsNum :=
  match s.dropWhile isWs with
  | '-' :: r => (parseDigits r).elim .nan (fun n => .int (-(n : Int)))
  | '+' :: r => (parseDigits r).elim .nan (fun n => .int (n : Int))
  | t => (parseDigits t).elim .nan (fun n => .int (n : Int))

/-- JavaScript object-property assignment `m[k] = v` for a string map
(overwrites in place, otherwise appends; string keys keep insertion
order). -/
def jsObjSet (m : List (Str × Str)) (k v : Str) : List (Str × Str) :=
  match m with
  | [] => [(k, v)]
  | (k', v') :: rest =>
    if k' = k then (k, v) :: rest else (k', v') :: jsObjSet rest k v

/-! ## Descriptor generation and parsing (`src/templates/fly-toml.mjs`) -/

/-- A JavaScript value that can appear in the `env` map of the descriptor
configuration (the source branches on `typeof`: string, number/boolean,
other). -/
inductive JsVal where
  | str (s : Str)
  | num (n : JsNum)
  | bool (b : Bool)
  deriving DecidableEq, Repr

/-- `instances` sub-record of the generator input. -/
structure GenInstances where
  min : JsNum := .int 1
  max : JsNum := .int 3
  deriving DecidableEq, Repr

/-- A volume entry of the generator input (`{name, mount, ...}`). -/
structure GenVolume where
  name : Str
  mount : Str
  deriving DecidableEq, Repr

/-- The `build` sub-record of the generator input. -/
structure BuildCfg where
  dockerfile : Option Str := none
  deriving DecidableEq, Repr

/-- The configuration record destructured by `generateFlyToml` (a `none`
field means the property is absent and the destructuring default
applies). -/
structure GenConfig where
  app : Option Str := none
  region : Option Str := none
  memory : Option Str := none
  instances : Option GenInstances := none
  env : Option (List (Str × JsVal)) := none
  volumes : Option (List GenVolume) := none
  build : Option BuildCfg := none
  deriving DecidableEq, Repr

/-- One `toml +=` line of the env loop. -/
def envEntryChunk (kv : Str × JsVal) : Str :=
  match kv.2 with
  | .str s => s2l "  " ++ kv.1 ++ s2l " = \"" ++ s ++ s2l "\"\n"
  | .num n => s2l "  " ++ kv.1 ++ s2l " = " ++ jsNumToStr n ++ s2l "\n"
  | .bool b =>
    s2l "  " ++ kv.1 ++ s2l " = " ++ (if b then s2l "true" else s2l "false") ++ s2l "\n"

/-- The `[[mounts]]` block written for one volume. -/
def volumeChunk (v : GenVolume) : Str :=
  s2l "[[mounts]]\n" ++ s2l "  source = \"" ++ v.name ++ s2l "\"\n" ++
    s2l "  destination = \"" ++ v.mount ++ s2l "\"\n\n"

/-- `generateFlyToml(config)` from `src/templates/fly-toml.mjs`: pure string
building, one `++` chunk per `toml +=` statement of the source, then
`.trim()`. -/
def generateFlyToml (config : GenConfig) : Str :=
  let app := config.app
  let region := config.region.getD (s2l "ord")
  let memory := config.memory.getD (s2l "512mb")
  let instances := config.instances.getD {}
  let env := config.env.getD []
  let volumes := config.volumes.getD []
  let build := config.build.getD {}
  let toml : Str :=
    (if jsTruthyStr app then s2l "app = \"" ++ app.getD [] ++ s2l "\"\n" else [])
    ++ s2l "primary_region = \"" ++ region ++ s2l "\"\n\n"
    ++ s2l "[build]\n"
    ++ (if jsTruthyStr build.dockerfile then
          s2l "  dockerfile = \"" ++ build.dockerfile.getD [] ++ s2l "\"\n"
        else s2l "  dockerfile = \".nuxfly/Dockerfile\"\n")
    ++ s2l "\n"
    ++ s2l "[[services]]\n" ++ s2l "  protocol = \"tcp\"\n"
    ++ s2l "  internal_port = 3000\n" ++ s2l "  processes = [\"app\"]\n\n"
    ++ s2l "  [[services.ports]]\n" ++ s2l "    port = 80\n"
    ++ s2l "    handlers = [\"http\"]\n" ++ s2l "    force_https = true\n\n"
    ++ s2l "  [[services.ports]]\n" ++ s2l "    port = 443\n"
    ++ s2l "    handlers = [\"tls\", \"http\"]\n\n"
    ++ s2l "  [services.http_checks]\n"
    ++ s2l "    [services.http_checks.health]\n"
    ++ s2l "      grace_period = \"5s\"\n" ++ s2l "      interval = \"10s\"\n"
    ++ s2l "      method = \"GET\"\n" ++ s2l "      path = \"/\"\n"
    ++ s2l "      timeout = \"5s\"\n\n"
    ++ s2l "[[processes]]\n" ++ s2l "  name = \"app\"\n"
    ++ s2l "  entrypoint = [\"npm\", \"start\"]\n\n"
    ++ s2l "[vm]\n" ++ s2l "  memory = \"" ++ memory ++ s2l "\"\n"
    ++ s2l "  cpu_kind = \"shared\"\n" ++ s2l "  cpus = 1\n\n"
    ++ s2l "[scaling]\n"
    ++ s2l "  min_machines_running = " ++ jsNumToStr instances.min ++ s2l "\n"
    ++ s2l "  max_machines_running = " ++ jsNumToStr instances.max ++ s2l "\n\n"
    ++ (if env ≠ [] then s2l "[env]\n" ++ (env.map envEntryChunk).flatten ++ s2l "\n"
        else [])
    ++ (if volumes ≠ [] then (volumes.map volumeChunk).flatten else [])
  trim toml

/-- A parsed volume entry: `{...currentMount, mount}` — the `name` field can
be absent when no `source` key preceded `destination`. -/
structure PVolume where
  name : Option Str := none
  mount : Str := []
  deriving DecidableEq, Repr

/-- Parsed `instances` record (initial value `{min: 1, max: 3}`). -/
structure PInstances where
  min : JsNum := .int 1
  max : JsNum := .int 3
  deriving DecidableEq, Repr

/-- The result record of `parseFlyToml` with its initial values. -/
structure PConfig where
  app : Option Str := none
  region : Str := s2l "ord"
  memory : Str := s2l "512mb"
  instances : PInstances := {}
  env : List (Str × Str) := []
  volumes : List PVolume := []
  deriving DecidableEq, Repr

/-- Loop state of `parseFlyToml`: the config being built, `currentSection`,
and `currentMount` (`some name?` models the `{name?}` object, `none` models
`null`). -/
structure PState where
  cfg : PConfig := {}
  currentSection : Option Str := none
  currentMount : Option (Option Str) := none
  deriving DecidableEq, Repr

/-- `\w` of JavaScript regular expressions. -/
def isWordChar (c : Char) : Bool := c.isAlphanum || c = '_'

/-- The key/value regex `/^(\w+)\s*=\s*(.+)$/` of the parser.  (The regex
engine could also match a line ending in whitespace with a whitespace-only
value via backtracking of `\s*`; the parser only ever applies the regex to
trimmed lines, where the two behaviours coincide.) -/
def matchKeyValue (s : Str) : Option (Str × Str) :=
  let key := s.takeWhile isWordChar
  if key = [] then none
  else
    match (s.dropWhile isWordChar).dropWhile isWs with
    | '=' :: r =>
      let v := r.dropWhile isWs
      if v = [] then none else some (key, v)
    | _ => none

def isQuote (c : Char) : Bool := c = '"' || c = '\''

/-- `value.replace(/^["']|["']$/g, '')`: strip one leading and one trailing
quote character. -/
def cleanValue (s : Str) : Str :=
  let s1 := match s with
    | c :: r => if isQuote c then r else s
    | [] => []
  match s1.reverse with
  | c :: r => if isQuote c then r.reverse else s1
  | [] => s1

/-- `trimmed.slice(1, -1)`. -/
def jsSlice1m1 (s : Str) : Str := (s.drop 1).dropLast

/-- The shared branch for key/value pairs outside any section (and inside a
section literally named `root`). -/
def rootKeyValue (st : PState) (key cleanV : Str) : PState :=
  if key = s2l "app" then { st with cfg := { st.cfg with app := some cleanV } }
  else if key = s2l "primary_region" then
    { st with cfg := { st.cfg with region := cleanV } }
  else st

/-- The section dispatch of the line loop of `parseFlyToml` once a line has
matched the key/value regex (`cleanV` is the already-cleaned value). -/
def sectionKeyValue (st : PState) (key cleanV : Str) : PState :=
  match st.currentSection with
  | none => rootKeyValue st key cleanV
  | some sec =>
    if sec = s2l "root" then rootKeyValue st key cleanV
    else if sec = s2l "vm" then
      if key = s2l "memory" then
        { st with cfg := { st.cfg with memory := cleanV } }
      else st
    else if sec = s2l "scaling" then
      if key = s2l "min_machines_running" then
        { st with cfg := { st.cfg with
            instances := { st.cfg.instances with min := jsParseInt cleanV } } }
      else if key = s2l "max_machines_running" then
        { st with cfg := { st.cfg with
            instances := { st.cfg.instances with max := jsParseInt cleanV } } }
      else st
    else if sec = s2l "env" then
      { st with cfg := { st.cfg with env := jsObjSet st.cfg.env key cleanV } }
    else if sec = s2l "[[mounts]]" then
      match st.currentMount with
      | some mnt =>
        if key = s2l "source" then { st with currentMount := some (some cleanV) }
        else if key = s2l "destination" then
          { st with
            cfg := { st.cfg with volumes := st.cfg.volumes ++ [⟨mnt, cleanV⟩] },
            currentMount := none }
        else st
      | none => st
    else st

/-- The body of the line loop of `parseFlyToml`. -/
def processLine (st : PState) (line : Str) : PState :=
  let trimmed := trim line
  if trimmed = [] || jsStartsWith (s2l "#") trimmed then st
  else if jsStartsWith (s2l "[") trimmed && jsEndsWith (s2l "]") trimmed then
    -- `currentSection = trimmed.slice(1, -1)`; the subsequent comparison
    -- `currentSection === '[[mounts]]'` is against the *unsliced* spelling
    let sec := jsSlice1m1 trimmed
    { st with currentSection := some sec,
              currentMount := if sec = s2l "[[mounts]]" then some none
                              else st.currentMount }
  else
    match matchKeyValue trimmed with
    | none => st
    | some (key, value) => sectionKeyValue st key (cleanValue value)

/-- `parseFlyToml(content)` from `src/templates/fly-toml.mjs`. -/
def parseFlyToml (content : Str) : PConfig :=
  ((jsSplit '\n' content).foldl processLine {}).cfg

/-! ## Error taxonomy (`src/utils/errors.mjs`) -/

inductive NuxflyErrKind where
  | generic
  | flyctlNotFound
  | flyTomlNotFound
  | configError
  | notNuxtProject
  | nuxflyEnvNotSet
  | permission
  | flyctlFailed
  deriving DecidableEq, Repr

/-- A typed CLI error: every error carries an exit code and an optional
suggestion. -/
structure NuxflyError where
  kind : NuxflyErrKind := .generic
  message : Str := []
  exitCode : Int := 1
  suggestion : Option Str := none
  deriving DecidableEq, Repr

/-- `new ConfigError(message)`: prefixes the message and uses exit code 3. -/
def mkConfigError (msg : Str) : NuxflyError :=
  { kind := .configError
    message := s2l "Configuration error: " ++ msg
    exitCode := 3
    suggestion := some (s2l "Check your nuxt.config.js nuxfly section") }

/-- `new NotNuxtProjectError()`: exit code 4. -/
def mkNotNuxtProjectError : NuxflyError :=
  { kind := .notNuxtProject
    message := s2l "Not a Nuxt project"
    exitCode := 4
    suggestion := some (s2l "Make sure you are in a directory with a nuxt.config.js/ts file") }

/-- Modelled from the spec: the class `NuxflyEnvNotSetError` is defined in
`packages/cli/src/utils/errors.mjs`, which is not among the provided source
files (only its import and raise sites are).  The spec fixes the
"environment not set" failure to exit code 2. -/
def mkNuxflyEnvNotSetError : NuxflyError :=
  { kind := .nuxflyEnvNotSet
    message := s2l "NUXFLY_ENV is not set"
    exitCode := 2
    suggestion := none }

/-- `validateRequired(value, name)`: throws a `ConfigError` when the value is
falsy. -/
def validateRequired (value : Option Str) (name : Str) :
    Except NuxflyError Unit :=
  if jsTruthyStr value then .ok () else .error (mkConfigError (name ++ s2l " is required"))

/-! ## Configuration model (`packages/cli/src/utils/config.mjs`) -/

/-- The nuxfly section of the loaded Nuxt configuration (an external
collaborator; only the boolean storage toggles are consumed by the CLI). -/
structure NuxflyFlags where
  litestream : Bool := false
  publicStorage : Bool := false
  privateStorage : Bool := false
  deriving DecidableEq, Repr

/-- The loaded Nuxt configuration (external collaborator, opaque except for
its `nuxfly` section). -/
structure NuxtCfg where
  nuxfly : NuxflyFlags := {}
  deriving DecidableEq, Repr

/-- The process environment variables the CLI consumes. -/
structure ProcEnv where
  nuxflyEnv : Option Str := none
  flyApp : Option Str := none
  flyAccessToken : Option Str := none
  deriving DecidableEq, Repr

/-- The current working directory's files, as `(name, content)` pairs.
Paths are modelled relative to the working directory (`join(cwd, p)` is
modelled as `p`). -/
structure Fs where
  files : List (Str × Str) := []
  deriving DecidableEq, Repr

/-- `existsSync(join(cwd, p))`. -/
def existsSyncF (fs : Fs) (p : Str) : Bool := fs.files.any (fun f => f.1 = p)

/-- `readdirSync(cwd)`. -/
def readdirSyncF (fs : Fs) : List Str := fs.files.map (·.1)

/-- `readFileSync(join(cwd, p), 'utf8')`. -/
def readFileF (fs : Fs) (p : Str) : Str :=
  ((fs.files.find? (fun f => f.1 = p)).map (·.2)).getD []

/-- `instances` as validated by `validateConfig` (fields may be absent). -/
structure CliInstances where
  min : Option Int := none
  max : Option Int := none
  deriving DecidableEq, Repr

/-- A volume as validated by `validateConfig` (fields may be absent). -/
structure CliVolume where
  name : Option Str := none
  mount : Option Str := none
  size : Option Str := none
  deriving DecidableEq, Repr

/-- The `_runtime` record attached by `loadConfig`. -/
structure RuntimeInfo where
  flyTomlPath : Option Str := none
  flyTomlExists : Bool := false
  nuxflyDir : Str := s2l ".nuxfly"
  distPath : Str := s2l ".output"
  flyConfig : Option PConfig := none
  deriving DecidableEq, Repr

/-- The resolved configuration object built by `loadConfig` (and consumed by
`validateConfig`, which also accepts records carrying `instances` and
`secrets` properties). -/
structure CliConfig where
  nuxt : NuxtCfg := {}
  app : Option Str := none
  region : Option Str := none
  memory : Option Str := none
  cpu_kind : Option Str := none
  cpus : Option Int := none
  instances : Option CliInstances := none
  env : List (Str × Str) := []
  volumes : Option (List CliVolume) := none
  secrets : Option (List Str) := none
  runtime : Option RuntimeInfo := none
  deriving DecidableEq, Repr

/-- `/^\d+(?:mb|gb)$/i.test(memory)` (`isValidMemoryFormat`). -/
def isValidMemoryFormat (memory : Str) : Bool :=
  let ds := memory.takeWhile Char.isDigit
  let rest := (memory.drop ds.length).map Char.toLower
  ds ≠ [] && (rest = s2l "mb" || rest = s2l "gb")

/-- `typeof v === 'number' && v < bound` for an optional number. -/
def jsNumLt (a : Option Int) (bound : Int) : Bool :=
  match a with
  | some m => decide (m < bound)
  | none => false

/-- `min > max` with JavaScript comparison semantics: comparisons against
`undefined` are false. -/
def jsGtOpt (a b : Option Int) : Bool :=
  match a, b with
  | some x, some y => x > y
  | _, _ => false

/-- The per-volume checks of `validateConfig`. -/
def validateVolume (v : CliVolume) : Except NuxflyError Unit := do
  validateRequired v.name (s2l "volume.name")
  validateRequired v.mount (s2l "volume.mount")
  validateRequired v.size (s2l "volume.size")
  if ¬ jsStartsWith (s2l "/") (v.mount.getD []) then
    .error (mkConfigError (s2l "volume.mount must be an absolute path"))
  else if ¬ isValidMemoryFormat (v.size.getD []) then
    .error (mkConfigError (s2l "volume.size must be in format like \"1gb\", \"500mb\", etc."))
  else .ok ()

def validateVolumes : List CliVolume → Except NuxflyError Unit
  | [] => .ok ()
  | v :: vs => do
    validateVolume v
    validateVolumes vs

/-- The `instances` checks at the head of `validateConfig`. -/
def instancesCheck (config : CliConfig) : Except NuxflyError Unit :=
  match config.instances with
  | some inst =>
    if jsNumLt inst.min 0 then
      .error (mkConfigError (s2l "instances.min must be >= 0"))
    else if jsNumLt inst.max 1 then
      .error (mkConfigError (s2l "instances.max must be >= 1"))
    else if jsGtOpt inst.min inst.max then
      .error (mkConfigError (s2l "instances.min cannot be greater than instances.max"))
    else .ok ()
  | none => .ok ()

/-- `validateConfig(config)` (textually identical in
`packages/cli/src/utils/config.mjs` and `src/utils/config.mjs`): the checks
run in source order and the first failing check throws.  The trailing
`secrets` check only guards against non-array values, which the typed model
cannot represent, so it never fires here. -/
def validateConfig (config : CliConfig) : Except NuxflyError Unit :=
  match instancesCheck config with
  | .error e => .error e
  | .ok _ =>
    if jsTruthyStr config.memory && !(isValidMemoryFormat (config.memory.getD [])) then
      .error (mkConfigError (s2l "memory must be in format like \"512mb\", \"1gb\", etc."))
    else
      match config.volumes with
      | some vs => validateVolumes vs
      | none => .ok ()

/-- `/^fly\.[^.]+\.toml$/.test(file)`. -/
def matchesEnvTomlName (s : Str) : Bool :=
  jsStartsWith (s2l "fly.") s &&
  (let rest := s.drop 4
   let mid := rest.takeWhile (fun c => c != '.')
   mid ≠ [] && rest.drop mid.length = s2l ".toml")

/-- `hasEnvironmentSpecificFiles()` from `packages/cli/src/utils/config.mjs`. -/
def hasEnvironmentSpecificFiles (fs : Fs) : Bool :=
  (readdirSyncF fs).any matchesEnvTomlName

/-- `getEnvironmentSpecificFlyTomlPath()` from
`packages/cli/src/utils/config.mjs`: throws `NuxflyEnvNotSetError` when
environment-suffixed descriptor files exist but `NUXFLY_ENV` is unset. -/
def getEnvironmentSpecificFlyTomlPath (fs : Fs) (env : ProcEnv) :
    Except NuxflyError Str :=
  let envv := env.nuxflyEnv
  let hasEnvFiles := hasEnvironmentSpecificFiles fs
  if hasEnvFiles && ¬ jsTruthyStr envv then .error mkNuxflyEnvNotSetError
  else if ¬ hasEnvFiles then .ok (s2l "fly.toml")
  else if envv = some (s2l "prod") then .ok (s2l "fly.toml")
  else .ok (s2l "fly." ++ envv.getD [] ++ s2l ".toml")

/-- `getAppName(config)`: `config.app || process.env.FLY_APP`. -/
def getAppName (config : CliConfig) (env : ProcEnv) : Option Str :=
  jsOrStr config.app env.flyApp

/-- `getRegion(config)`: `config.region || 'ord'`. -/
def getRegion (config : CliConfig) : Str :=
  (jsOrStr config.region (some (s2l "ord"))).getD []

/-- `loadConfig()` from `packages/cli/src/utils/config.mjs` (second,
environment-aware revision).  `loadNuxtConfig` is an external collaborator,
passed in as `nuxt`; the filesystem and environment are explicit.  The
source computes `getEnvironmentSpecificFlyTomlPath() || join(cwd,
'fly.toml')`, but the function never returns a falsy path, so the fallback
is dead code. -/
def loadConfig (fs : Fs) (env : ProcEnv) (nuxt : NuxtCfg) :
    Except NuxflyError CliConfig := do
  if ¬ existsSyncF fs (s2l "nuxt.config.ts") then .error mkNotNuxtProjectError
  else do
    let flyTomlPath ← getEnvironmentSpecificFlyTomlPath fs env
    let flyTomlExists := existsSyncF fs flyTomlPath
    let flyConfig : Option PConfig :=
      if flyTomlExists then some (parseFlyToml (readFileF fs flyTomlPath)) else none
    let config : CliConfig := {
      nuxt := nuxt
      app := match flyConfig with | some fc => fc.app | none => none
      region := flyConfig.map (·.region)
      memory := flyConfig.map (·.memory)
      -- `flyConfig.cpu_kind` / `flyConfig.cpus`: `parseFlyToml` never sets
      -- these properties, so they are always undefined here
      cpu_kind := none
      cpus := none
      env := match flyConfig with | some fc => fc.env | none => []
      volumes := some (match flyConfig with
        | some fc => fc.volumes.map (fun v => { name := v.name, mount := some v.mount })
        | none => []) }
    -- applyEnvironmentOverrides
    let config := if jsTruthyStr env.flyApp then { config with app := env.flyApp }
      else config
    validateConfig config
    .ok { config with runtime := some {
      flyTomlPath := some flyTomlPath
      flyTomlExists := flyTomlExists
      nuxflyDir := s2l ".nuxfly"
      distPath := s2l ".output"
      flyConfig := flyConfig } }

/-! ## Flyctl argument construction

Two revisions exist: `packages/cli/src/utils/flyctl.mjs` (with the
`storage`/`launch` suppression set) and the older `src/utils/flyctl.mjs`
(no suppression). -/

/-- `getFlyTomlPath(config)` of the cli revision: the runtime path when
set, otherwise the environment-specific resolution (which can throw). -/
def getFlyTomlPath (config : CliConfig) (fs : Fs) (env : ProcEnv) :
    Except NuxflyError Str :=
  match config.runtime with
  | some rt => if jsTruthyStr rt.flyTomlPath then .ok (rt.flyTomlPath.getD [])
               else getEnvironmentSpecificFlyTomlPath fs env
  | none => getEnvironmentSpecificFlyTomlPath fs env

/-- `config._runtime?.flyTomlExists` (truthy check). -/
def runtimeFlyTomlExists (config : CliConfig) : Bool :=
  (config.runtime.map (·.flyTomlExists)).getD false

/-- `buildFlyctlArgs(command, userArgs, config)` from
`packages/cli/src/utils/flyctl.mjs`. -/
def buildFlyctlArgs (command : Str) (userArgs : List Str) (config : CliConfig)
    (fs : Fs) (env : ProcEnv) : Except NuxflyError (List Str) := do
  let args := [command]
  let args := args ++
    (if command = s2l "launch" then
      [s2l "--dockerfile", s2l ".nuxfly/Dockerfile", s2l "--dockerignore-from-gitignore"]
     else [])
  let args ←
    if command ≠ s2l "storage" ∧ command ≠ s2l "launch" ∧
        runtimeFlyTomlExists config then do
      let flyTomlPath ← getFlyTomlPath config fs env
      pure (args ++ [s2l "--config", flyTomlPath])
    else pure args
  let appName := getAppName config env
  let args := args ++
    (if command ≠ s2l "storage" ∧ command ≠ s2l "launch" ∧ jsTruthyStr appName then
      [s2l "--app", appName.getD []]
     else [])
  pure (args ++ userArgs)

/-- `getFlyTomlPath(config)` of the legacy revision:
`config._runtime?.flyTomlPath || join(cwd, '.nuxfly', 'fly.toml')`. -/
def getFlyTomlPathLegacy (config : CliConfig) : Str :=
  (jsOrStr (config.runtime.bind (·.flyTomlPath)) (some (s2l ".nuxfly/fly.toml"))).getD []

/-- `buildFlyctlArgs(command, userArgs, config)` from the legacy
`src/utils/flyctl.mjs`: no storage/launch suppression at all. -/
def buildFlyctlArgsLegacy (command : Str) (userArgs : List Str)
    (config : CliConfig) (env : ProcEnv) : List Str :=
  let args := [command]
  let args := args ++
    (if runtimeFlyTomlExists config then
      [s2l "--config", getFlyTomlPathLegacy config]
     else [])
  let args := args ++
    (if jsTruthyStr (getAppName config env) then
      [s2l "--app", (getAppName config env).getD []]
     else [])
  args ++ userArgs

/-! ## Command-handler cancellation policy (claim C7)

Each command handler's `try { ... } catch (error) { ... }` is modelled by
the function the catch clause denotes: given the error raised by the
orchestration body, it either returns normally (`.ok ()`) or rethrows. -/

/-- A raised JavaScript error as seen by a catch clause: `error.exitCode`
is absent for plain `Error`s. -/
structure JsError where
  exitCode : Option Int := none
  message : Str := []
  deriving DecidableEq, Repr

inductive CommandHandler where
  | launch
  | generate
  | deploy
  | importCmd
  | studio
  | update
  | proxy
  deriving DecidableEq, Repr

/-- What each command handler does with an error raised during its
orchestration: `launch`, `deploy` and `studio` return silently on exit code
130; `generate` and `import` rethrow a wrapped error unconditionally;
`update` and `proxy` have no catch clause at all, so the error
propagates unchanged. -/
def handleOrchestrationError : CommandHandler → JsError → Except JsError Unit
  | .launch, e =>
    if e.exitCode = some 130 then .ok ()
    else .error { exitCode := some 1, message := s2l "Launch failed: " ++ e.message }
  | .deploy, e =>
    if e.exitCode = some 130 then .ok ()
    else .error { exitCode := some 1, message := s2l "Deployment failed: " ++ e.message }
  | .studio, e =>
    if e.exitCode = some 130 then .ok ()
    else .error { exitCode := some 1, message := s2l "Studio setup failed: " ++ e.message }
  | .generate, e =>
    -- `throw new Error(...)`: a plain error, no exit code of its own
    .error { exitCode := none,
             message := s2l "Failed to generate deployment files: " ++ e.message }
  | .importCmd, e =>
    .error { exitCode := some 1,
             message := s2l "Failed to import app configuration: " ++ e.message }
  | .update, e => .error e
  | .proxy, e => .error e

/-! ## Bucket creation during `launch` (claim C8) -/

inductive BucketKind where
  | litestream
  | publicB
  | privateB
  deriving DecidableEq, Repr

def bucketSuffix : BucketKind → Str
  | .litestream => s2l "-litestream"
  | .publicB => s2l "-public"
  | .privateB => s2l "-private"

def bucketKindEnabled (flags : NuxflyFlags) : BucketKind → Bool
  | .litestream => flags.litestream
  | .publicB => flags.publicStorage
  | .privateB => flags.privateStorage

/-- Observable actions of the bucket-creation phase. -/
inductive BucketAction where
  | create (name : Str)
  | skipExisting (name : Str)
  deriving DecidableEq, Repr

/-- One bucket conditional of the launch flow: create the bucket unless its
name is already in the `existingBuckets` snapshot, in which case log a skip
message instead. -/
def bucketStep (existing : List Str) (name : Str) : BucketAction :=
  if existing.contains name then .skipExisting name else .create name

/-- The bucket-creation phase of the `launch` command handler: for each
configured bucket kind, `existingBuckets.includes(name)` decides between
creation and a logged skip. -/
def launchBucketPhase (flags : NuxflyFlags) (app : Str) (existing : List Str) :
    List BucketAction :=
  (if flags.litestream then [bucketStep existing (app ++ s2l "-litestream")] else [])
  ++ (if flags.publicStorage then [bucketStep existing (app ++ s2l "-public")] else [])
  ++ (if flags.privateStorage then [bucketStep existing (app ++ s2l "-private")] else [])

/-- The three `instances` conditions of `validateConfig`, as one predicate
(used to state which configs get past the instances checks). -/
def instancesChecksPass (cfg : CliConfig) : Bool :=
  match cfg.instances with
  | none => true
  | some inst =>
    !(jsNumLt inst.min 0) && !(jsNumLt inst.max 1) && !(jsGtOpt inst.min inst.max)

/-! ## Levenshtein distance (`proxy` command suggestions, claim C9)

`levenshteinDistance(str1, str2)` fills the standard DP matrix with
`matrix[0][j] = j`, `matrix[i][0] = i` and the three-way minimum
(substitution, insertion, deletion), returning
`matrix[str2.length][str1.length]`.  `levCell` is the defining recurrence of
that table, so `levCell i j` is the value the filled table holds at
`matrix[i][j]` (the loops index `charAt` only within bounds). -/

/-- `s.charAt(i)` for an in-bounds index. -/
def charAt (s : Str) (i : Nat) : Char := s.getD i (Char.ofNat 0)

/-- The DP table of `levenshteinDistance`: cell `matrix[i][j]`. -/
def levCell (str1 str2 : Str) : Nat → Nat → Nat
  | 0, j => j
  | i + 1, 0 => i + 1
  | i + 1, j + 1 =>
    if charAt str2 i = charAt str1 j then levCell str1 str2 i j
    else
      min (min (levCell str1 str2 i j + 1)        -- substitution
               (levCell str1 str2 (i + 1) j + 1)) -- insertion
          (levCell str1 str2 i (j + 1) + 1)       -- deletion
  termination_by i j => i + j

/-- `levenshteinDistance(str1, str2)` from the proxy-command revision of
`packages/cli/src/utils/build.mjs`. -/
def levenshteinDistance (str1 str2 : Str) : Nat :=
  levCell str1 str2 str2.length str1.length

/-- The textbook recursive Levenshtein distance (specification side,
peeling characters from the front). -/
def levRec : Str → Str → Nat
  | [], ys => ys.length
  | xs, [] => xs.length
  | x :: xs, y :: ys =>
    if x = y then levRec xs ys
    else
      min (min (levRec xs ys + 1) (levRec xs (y :: ys) + 1))
          (levRec (x :: xs) ys + 1)
  termination_by a b => a.length + b.length

/-- One single-character edit anywhere in the string: deletion, insertion,
or substitution (specification side). -/
inductive EditStep : Str → Str → Prop where
  | del (u v : Str) (x : Char) : EditStep (u ++ x :: v) (u ++ v)
  | ins (u v : Str) (x : Char) : EditStep (u ++ v) (u ++ x :: v)
  | subst (u v : Str) (x y : Char) : EditStep (u ++ x :: v) (u ++ y :: v)

/-- `Reaches n a b`: `a` can be transformed into `b` by `n` single-character
edits (specification side). -/
def Reaches : Nat → Str → Str → Prop
  | 0, a, b => a = b
  | n + 1, a, b => ∃ c, EditStep a c ∧ Reaches n c b

/-- Structural (left-to-right) edit scripts with their cost — an auxiliary
notion used to connect `levRec` with arbitrary-position edit sequences. -/
inductive Ed : Str → Str → Nat → Prop where
  | nil : Ed [] [] 0
  | keep (c : Char) {xs ys : Str} {n : Nat} : Ed xs ys n → Ed (c :: xs) (c :: ys) n
  | subst (x y : Char) {xs ys : Str} {n : Nat} :
      Ed xs ys n → Ed (x :: xs) (y :: ys) (n + 1)
  | del (x : Char) {xs ys : Str} {n : Nat} : Ed xs ys n → Ed (x :: xs) ys (n + 1)
  | ins (y : Char) {xs ys : Str} {n : Nat} : Ed xs ys n → Ed xs (y :: ys) (n + 1)

/-! ## Line decomposition of the generated descriptor (claim C1)

`generateFlyToml` appends one `toml +=` chunk per emitted line, each chunk
ending in `"\n"`.  `lineJoin` re-assembles a list of lines with a newline
after every line, and the `*Line` definitions name the individual emitted
lines, so the generated text can be analysed line by line. -/

/-- Join lines, terminating every line with a newline. -/
def lineJoin : List Str → Str
  | [] => []
  | l :: ls => l ++ '\n' :: lineJoin ls

/-- The `app = "..."` line of the generated descriptor. -/
def appLine (a : Str) : Str := s2l "app = \"" ++ a ++ s2l "\""

/-- The `primary_region = "..."` line. -/
def regionLine (r : Str) : Str := s2l "primary_region = \"" ++ r ++ s2l "\""

/-- The configured `dockerfile` line of the `[build]` section. -/
def dockerLine (d : Str) : Str := s2l "  dockerfile = \"" ++ d ++ s2l "\""

/-- The `memory` line of the `[vm]` section. -/
def memoryLine (m : Str) : Str := s2l "  memory = \"" ++ m ++ s2l "\""

/-- The `min_machines_running` line of the `[scaling]` section. -/
def minLine (n : JsNum) : Str := s2l "  min_machines_running = " ++ jsNumToStr n

/-- The `max_machines_running` line of the `[scaling]` section. -/
def maxLine (n : JsNum) : Str := s2l "  max_machines_running = " ++ jsNumToStr n

/-- The line written for a string-valued `[env]` entry. -/
def envLine (kv : Str × Str) : Str :=
  s2l "  " ++ kv.1 ++ s2l " = \"" ++ kv.2 ++ s2l "\""

/-- The `source` line of a `[[mounts]]` block. -/
def sourceLine (nm : Str) : Str := s2l "  source = \"" ++ nm ++ s2l "\""

/-- The `destination` line of a `[[mounts]]` block. -/
def destLine (mnt : Str) : Str := s2l "  destination = \"" ++ mnt ++ s2l "\""

/-- The lines of the `[[mounts]]` block written for one volume (the closing
blank line comes from the chunk's trailing `\n\n`). -/
def volLines (v : GenVolume) : List Str :=
  [s2l "[[mounts]]", sourceLine v.name, destLine v.mount, []]

/-- The fixed `[[services]]`/`[[processes]]` block of the generated
descriptor, line by line. -/
def servicesLines : List Str :=
  [s2l "[[services]]", s2l "  protocol = \"tcp\"", s2l "  internal_port = 3000",
   s2l "  processes = [\"app\"]", [],
   s2l "  [[services.ports]]", s2l "    port = 80", s2l "    handlers = [\"http\"]",
   s2l "    force_https = true", [],
   s2l "  [[services.ports]]", s2l "    port = 443",
   s2l "    handlers = [\"tls\", \"http\"]", [],
   s2l "  [services.http_checks]", s2l "    [services.http_checks.health]",
   s2l "      grace_period = \"5s\"", s2l "      interval = \"10s\"",
   s2l "      method = \"GET\"", s2l "      path = \"/\"",
   s2l "      timeout = \"5s\"", [],
   s2l "[[processes]]", s2l "  name = \"app\"",
   s2l "  entrypoint = [\"npm\", \"start\"]", []]

/-- The full line sequence of the generated descriptor before trimming, for
a configuration with a present app name, string-valued environment entries
and explicit volumes (`dLine` is the emitted `dockerfile` line, `mn`/`mx`
the rendered instance bounds). -/
def genLines (a r m dLine : Str) (mn mx : JsNum)
    (env : List (Str × Str)) (vols : List GenVolume) : List Str :=
  [appLine a, regionLine r, [], s2l "[build]", dLine, []]
  ++ servicesLines
  ++ [s2l "[vm]", memoryLine m, s2l "  cpu_kind = \"shared\"", s2l "  cpus = 1", [],
      s2l "[scaling]", minLine mn, maxLine mx, []]
  ++ (if env = [] then [] else s2l "[env]" :: (env.map envLine ++ [[]]))
  ++ (vols.map volLines).flatten

/-! ## Lemmas: string splitting -/

theorem jsSplit_ne_nil (sep : Char) (s : Str) : jsSplit sep s ≠ [] := by
  cases s with
  | nil => simp [jsSplit]
  | cons c cs => simp only [jsSplit]; split <;> simp

/-- Splitting a string that does not contain the separator yields the string
itself as the only segment. -/
theorem jsSplit_eq_single {sep : Char} {s : Str} (h : sep ∉ s) :
    jsSplit sep s = [s] := by
  induction s with
  | nil => rfl
  | cons c cs ih =>
    simp only [List.mem_cons, not_or] at h
    simp only [jsSplit, ih h.2]
    rw [if_neg (by exact fun hc => h.1 hc.symm)]
    rfl

/-- Splitting distributes over the first occurrence of the separator. -/
theorem jsSplit_append_sep {sep : Char} {l : Str} (r : Str) (h : sep ∉ l) :
    jsSplit sep (l ++ sep :: r) = l :: jsSplit sep r := by
  induction l with
  | nil => simp [jsSplit]
  | cons c cs ih =>
    simp only [List.mem_cons, not_or] at h
    simp only [List.cons_append, jsSplit, List.append_eq, ih h.2]
    rw [if_neg (by exact fun hc => h.1 hc.symm)]
    rfl

/-- A string containing the separator splits into at least two segments. -/
theorem jsSplit_two_of_mem {sep : Char} {s : Str} (h : sep ∈ s) :
    ∃ a b t, jsSplit sep s = a :: b :: t := by
  induction s with
  | nil => cases h
  | cons c cs ih =>
    rcases List.mem_cons.mp h with hc | hcs
    · have hr := jsSplit_ne_nil sep cs
      rcases hne : jsSplit sep cs with _ | ⟨x, t⟩
      · exact absurd hne hr
      · subst hc; exact ⟨[], x, t, by simp [jsSplit, hne]⟩
    · obtain ⟨a, b, t, he⟩ := ih hcs
      by_cases hc : c = sep
      · exact ⟨[], a, b :: t, by simp [jsSplit, hc, he]⟩
      · exact ⟨c :: a, b, t, by simp [jsSplit, hc, he]⟩

/-! ## Lemmas and theorems: credential scraping (claims C2 and C10) -/

theorem colon_mem_of_includes {m line : Str} (h : jsIncludes m line = true)
    (hm : ':' ∈ m) : ':' ∈ line := by
  have hinf : m <:+: line := of_decide_eq_true h
  exact hinf.subset hm

theorem extractCredValue_eq {line : Str} (h : ':' ∈ line) :
    extractCredValue line = some (extractedVal line) := by
  obtain ⟨a, b, t, he⟩ := jsSplit_two_of_mem h
  simp [extractCredValue, extractedVal, jsSplitLimit, he]

theorem credStep_eq (cr : BucketCredentialsPartial) (line : Str) :
    credStep (some cr) line = some (credApply cr line) := by
  unfold credStep credApply credLineMatch
  by_cases h0 : jsIncludes markerAccessKeyId line
  · rw [extractCredValue_eq (colon_mem_of_includes h0 (by decide))]
    simp [h0, credSetField]
  by_cases h1 : jsIncludes markerSecretAccessKey line
  · rw [extractCredValue_eq (colon_mem_of_includes h1 (by decide))]
    simp [h0, h1, credSetField]
  by_cases h2 : jsIncludes markerEndpointUrl line
  · rw [extractCredValue_eq (colon_mem_of_includes h2 (by decide))]
    simp [h0, h1, h2, credSetField]
  by_cases h3 : jsIncludes markerRegion line
  · rw [extractCredValue_eq (colon_mem_of_includes h3 (by decide))]
    simp [h0, h1, h2, h3, credSetField]
  by_cases h4 : jsIncludes markerBucketName line
  · rw [extractCredValue_eq (colon_mem_of_includes h4 (by decide))]
    simp [h0, h1, h2, h3, h4, credSetField]
  · simp [h0, h1, h2, h3, h4, credSetField]

theorem foldl_credStep_eq (lines : List Str) (cr : BucketCredentialsPartial) :
    lines.foldl credStep (some cr) = some (lines.foldl credApply cr) := by
  induction lines generalizing cr with
  | nil => rfl
  | cons l ls ih => rw [List.foldl_cons, List.foldl_cons, credStep_eq, ih]

theorem credLineMatch_includes {line : Str} {k : Fin 5}
    (h : credLineMatch line = some k) : jsIncludes (credMarker k) line = true := by
  unfold credLineMatch at h
  split_ifs at h <;> simp_all [credMarker] <;> subst h <;> assumption

theorem credField_setField_ne {j k : Fin 5} (h : j ≠ k)
    (cr : BucketCredentialsPartial) (v : Option Str) :
    credField k (credSetField j cr v) = credField k cr := by
  fin_cases j <;> fin_cases k <;> simp_all [credField, credSetField]

theorem credField_setField_eq (k : Fin 5) (cr : BucketCredentialsPartial)
    (v : Option Str) : credField k (credSetField k cr v) = v := by
  fin_cases k <;> rfl

theorem credField_apply_of_no_match {line : Str} {k : Fin 5}
    (h : credLineMatch line ≠ some k) (cr : BucketCredentialsPartial) :
    credField k (credApply cr line) = credField k cr := by
  unfold credApply
  rcases hm : credLineMatch line with _ | j
  · rfl
  · exact credField_setField_ne (by rintro rfl; exact h hm) cr _

theorem credField_foldl_of_no_match {lines : List Str} {k : Fin 5}
    (h : ∀ l ∈ lines, credLineMatch l ≠ some k) (cr : BucketCredentialsPartial) :
    credField k (lines.foldl credApply cr) = credField k cr := by
  induction lines generalizing cr with
  | nil => rfl
  | cons l ls ih =>
    rw [List.foldl_cons, ih (fun x hx => h x (List.mem_cons_of_mem l hx)),
      credField_apply_of_no_match (h l (List.mem_cons_self l ls))]

theorem credField_foldl_of_match {lines : List Str} {k : Fin 5}
    (hex : ∃ l ∈ lines, credLineMatch l = some k)
    (hne : ∀ l ∈ lines, credLineMatch l = some k → extractedVal l ≠ [])
    (cr : BucketCredentialsPartial) :
    ∃ v, credField k (lines.foldl credApply cr) = some v ∧ v ≠ [] := by
  induction lines generalizing cr with
  | nil => obtain ⟨l, hl, _⟩ := hex; cases hl
  | cons l ls ih =>
    rw [List.foldl_cons]
    by_cases hls : ∃ l' ∈ ls, credLineMatch l' = some k
    · exact ih hls (fun x hx => hne x (List.mem_cons_of_mem l hx)) _
    · obtain ⟨l', hl', hm'⟩ := hex
      rcases List.mem_cons.mp hl' with rfl | hmem
      · rw [credField_foldl_of_no_match
          (fun x hx hmx => hls ⟨x, hx, hmx⟩)]
        refine ⟨extractedVal l', ?_, hne l' (List.mem_cons_self l' ls) hm'⟩
        unfold credApply
        rw [hm', credField_setField_eq]
      · exact absurd ⟨l', hmem, hm'⟩ hls

theorem credFinalize_none_of_field_none {cr : BucketCredentialsPartial}
    (k : Fin 5) (h : credField k cr = none) : credFinalize cr = none := by
  rcases cr with ⟨a, s, e, r, b⟩
  rcases a <;> rcases s <;> rcases e <;> rcases r <;> rcases b <;>
    fin_cases k <;> simp_all [credField, credFinalize]

theorem credFinalize_some_of_fields {cr : BucketCredentialsPartial}
    (h : ∀ k : Fin 5, ∃ v, credField k cr = some v ∧ v ≠ []) :
    ∃ c, credFinalize cr = some c := by
  rcases cr with ⟨a, s, e, r, b⟩
  obtain ⟨va, ha, hva⟩ := h 0
  obtain ⟨vs, hs, hvs⟩ := h 1
  obtain ⟨ve, he, hve⟩ := h 2
  obtain ⟨vr, hr, hvr⟩ := h 3
  obtain ⟨vb, hb, hvb⟩ := h 4
  replace ha : a = some va := ha
  replace hs : s = some vs := hs
  replace he : e = some ve := he
  replace hr : r = some vr := hr
  replace hb : b = some vb := hb
  subst ha hs he hr hb
  exact ⟨⟨va, vs, ve, vr, vb⟩, by simp [credFinalize, hva, hvs, hve, hvr, hvb]⟩

theorem credFinalize_fields {cr : BucketCredentialsPartial}
    {c : BucketCredentials} (h : credFinalize cr = some c) :
    c.accessKeyId ≠ [] ∧ c.secretAccessKey ≠ [] ∧ c.endpointUrl ≠ [] ∧
    c.region ≠ [] ∧ c.bucketName ≠ [] := by
  rcases cr with ⟨a, s, e, r, b⟩
  rcases a with _ | a <;> rcases s with _ | s <;> rcases e with _ | e <;>
    rcases r with _ | r <;> rcases b with _ | b <;>
    simp only [credFinalize] at h <;> try exact Option.noConfusion h
  split at h
  · cases h; simp_all
  · exact Option.noConfusion h

/-- C2.  `parseStorageCreateOutput` is all-or-nothing:
(i) any returned credentials record has all five fields non-empty
(never a partially populated object);
(ii) if some credential marker occurs on no line of the output, the result
is `null`;
(iii) if every marker has a matching line (in any order) and every matching
line carries a non-empty value, the result is a fully populated record. -/
theorem parseStorageCreateOutput_all_or_nothing :
    (∀ output c, parseStorageCreateOutput output = some c →
      c.accessKeyId ≠ [] ∧ c.secretAccessKey ≠ [] ∧ c.endpointUrl ≠ [] ∧
      c.region ≠ [] ∧ c.bucketName ≠ []) ∧
    (∀ output, ∀ k : Fin 5,
      (∀ line ∈ jsSplit '\n' output, jsIncludes (credMarker k) line = false) →
      parseStorageCreateOutput output = none) ∧
    (∀ output,
      (∀ k : Fin 5, ∃ line ∈ jsSplit '\n' output, credLineMatch line = some k) →
      (∀ line ∈ jsSplit '\n' output, ∀ k : Fin 5,
        credLineMatch line = some k → extractedVal line ≠ []) →
      ∃ c, parseStorageCreateOutput output = some c) := by
  refine ⟨?_, ?_, ?_⟩
  · intro output c h
    unfold parseStorageCreateOutput at h
    rw [foldl_credStep_eq] at h
    exact credFinalize_fields h
  · intro output k h
    unfold parseStorageCreateOutput
    rw [foldl_credStep_eq]
    refine credFinalize_none_of_field_none k ?_
    rw [credField_foldl_of_no_match
      (fun l hl hm => by
        have h1 := credLineMatch_includes hm
        rw [h l hl] at h1
        exact Bool.noConfusion h1)]
    fin_cases k <;> rfl
  · intro output hex hne
    unfold parseStorageCreateOutput
    rw [foldl_credStep_eq]
    exact credFinalize_some_of_fields fun k =>
      credField_foldl_of_match (hex k) (fun l hl hm => hne l hl k hm) {}

/-- Witness for C2 at concrete inputs: an output missing the
`AWS_ENDPOINT_URL_S3:` line parses to `null`, and a complete output (with
its lines permuted) parses to a full record. -/
theorem parseStorageCreateOutput_all_or_nothing_witness :
    parseStorageCreateOutput
      (s2l "AWS_ACCESS_KEY_ID: k\nAWS_SECRET_ACCESS_KEY: s\nAWS_REGION: auto\nBUCKET_NAME: b") = none ∧
    ∃ c, parseStorageCreateOutput
      (s2l "BUCKET_NAME: b\nAWS_REGION: auto\nAWS_ENDPOINT_URL_S3: https://fly.storage.tigris.dev\nAWS_SECRET_ACCESS_KEY: s\nAWS_ACCESS_KEY_ID: k") = some c :=
  ⟨parseStorageCreateOutput_all_or_nothing.2.1 _ 2 (by decide),
   parseStorageCreateOutput_all_or_nothing.2.2 _ (by decide) (by decide)⟩

/-- C10.  Each credential value is the text strictly between the first and
second colon of the matching line: on the concrete endpoint line
`AWS_ENDPOINT_URL_S3: https://host` the stored value is truncated to
`https` (while the colon-free `AWS_REGION` value is recovered exactly), and
in general `line.split(':', 2)[1].trim()` yields the trimmed segment between
the first and the second colon, or everything after the first colon when the
value has no further colon. -/
theorem parseStorageCreateOutput_truncates_at_colon :
    ((parseStorageCreateOutput
        (s2l "AWS_ACCESS_KEY_ID: k\nAWS_SECRET_ACCESS_KEY: s\nAWS_ENDPOINT_URL_S3: https://host\nAWS_REGION: auto\nBUCKET_NAME: b")).map
        (fun c => (c.endpointUrl, c.region)) = some (s2l "https", s2l "auto")) ∧
    (∀ a b c : Str, ':' ∉ a → ':' ∉ b →
      extractCredValue (a ++ ':' :: (b ++ ':' :: c)) = some (trim b)) ∧
    (∀ a b : Str, ':' ∉ a → ':' ∉ b →
      extractCredValue (a ++ ':' :: b) = some (trim b)) := by
  refine ⟨by decide, ?_, ?_⟩
  · intro a b c ha hb
    unfold extractCredValue jsSplitLimit
    rw [jsSplit_append_sep (b ++ ':' :: c) ha, jsSplit_append_sep c hb]
    rfl
  · intro a b ha hb
    unfold extractCredValue jsSplitLimit
    rw [jsSplit_append_sep b ha, jsSplit_eq_single hb]
    rfl

/-- Witness for C10 at concrete inputs. -/
theorem parseStorageCreateOutput_truncates_at_colon_witness :
    extractCredValue (s2l "AWS_ENDPOINT_URL_S3: https://host") = some (s2l "https") ∧
    extractCredValue (s2l "AWS_REGION: auto") = some (s2l "auto") := by
  constructor
  · have h := parseStorageCreateOutput_truncates_at_colon.2.1
      (s2l "AWS_ENDPOINT_URL_S3") (s2l " https") (s2l "//host")
      (by decide) (by decide)
    rw [show s2l "AWS_ENDPOINT_URL_S3: https://host" =
      s2l "AWS_ENDPOINT_URL_S3" ++ ':' :: (s2l " https" ++ ':' :: s2l "//host")
      from by decide]
    rw [h]; decide
  · have h := parseStorageCreateOutput_truncates_at_colon.2.2
      (s2l "AWS_REGION") (s2l " auto") (by decide) (by decide)
    rw [show s2l "AWS_REGION: auto" = s2l "AWS_REGION" ++ ':' :: s2l " auto"
      from by decide]
    rw [h]; decide

/-! ## Theorems: flyctl argument construction (claim C3) -/

/-- Counterexample to C3 as stated: the claim quantifies over every config
and every user-argument list, but the legacy `src/utils/flyctl.mjs` revision
of `buildFlyctlArgs` injects `--config` and `--app` even for `storage`, and
the cli revision passes user arguments through, so a user-supplied `--app`
also lands in the vector. -/
theorem buildFlyctlArgs_storage_counterexample :
    (s2l "--config") ∈ buildFlyctlArgsLegacy (s2l "storage") []
      { app := some (s2l "demo-app"),
        runtime := some { flyTomlPath := some (s2l ".nuxfly/fly.toml"),
                          flyTomlExists := true } } {} ∧
    (s2l "--app") ∈ buildFlyctlArgsLegacy (s2l "storage") []
      { app := some (s2l "demo-app"),
        runtime := some { flyTomlPath := some (s2l ".nuxfly/fly.toml"),
                          flyTomlExists := true } } {} ∧
    buildFlyctlArgs (s2l "storage") [s2l "--app", s2l "demo-app"] {} {} {} =
      .ok [s2l "storage", s2l "--app", s2l "demo-app"] :=
  ⟨by decide, by decide, rfl⟩

/-- C3 (amended).  The cli revision of `buildFlyctlArgs` never *injects*
`--app` or `--config` for the `storage` command: for every config, file
system, environment and user-argument list the result is exactly
`'storage' :: userArgs`, so either flag occurs only when the user arguments
themselves contain it.  (The legacy revision has no storage suppression;
see the counterexample.) -/
theorem buildFlyctlArgs_storage_no_injection
    (userArgs : List Str) (config : CliConfig) (fs : Fs) (env : ProcEnv) :
    buildFlyctlArgs (s2l "storage") userArgs config fs env =
      .ok (s2l "storage" :: userArgs) := by
  rfl

/-! ## Theorems: cancellation policy (claim C7) -/

/-- Counterexample to C7 as stated: the `generate` handler's catch clause
rethrows every error — including one with exit code 130 — as a wrapped
failure, and the `update` handler has no catch at all, so the
user-cancelled error propagates unchanged. -/
theorem handler130_counterexample :
    handleOrchestrationError .generate { exitCode := some 130, message := s2l "x" } =
      .error { exitCode := none,
               message := s2l "Failed to generate deployment files: x" } ∧
    handleOrchestrationError .update { exitCode := some 130, message := s2l "x" } =
      .error { exitCode := some 130, message := s2l "x" } :=
  ⟨rfl, rfl⟩

/-- C7 (amended).  Only the `launch`, `deploy` and `studio` handlers treat
an error with exit code 130 as a non-error early return; `generate`,
`import`, `update` and `proxy` propagate it as a failure. -/
theorem handler130_policy (e : JsError) (h : e.exitCode = some 130) :
    (handleOrchestrationError .launch e = .ok () ∧
     handleOrchestrationError .deploy e = .ok () ∧
     handleOrchestrationError .studio e = .ok ()) ∧
    (handleOrchestrationError .generate e ≠ .ok () ∧
     handleOrchestrationError .importCmd e ≠ .ok () ∧
     handleOrchestrationError .update e = .error e ∧
     handleOrchestrationError .proxy e = .error e) := by
  refine ⟨⟨?_, ?_, ?_⟩, ?_, ?_, ?_, ?_⟩ <;>
    simp [handleOrchestrationError, h]

/-- Witness for C7 (amended) at a concrete cancelled error. -/
theorem handler130_policy_witness :
    handleOrchestrationError .deploy { exitCode := some 130, message := s2l "x" } = .ok () ∧
    handleOrchestrationError .update { exitCode := some 130, message := s2l "x" } =
      .error { exitCode := some 130, message := s2l "x" } :=
  ⟨(handler130_policy { exitCode := some 130, message := s2l "x" } rfl).1.2.1,
   (handler130_policy { exitCode := some 130, message := s2l "x" } rfl).2.2.2.1⟩

/-! ## Theorems: bucket-creation idempotence (claim C8) -/

/-- C8.  The bucket-creation phase of `launch` is idempotent with respect to
the existing-buckets snapshot: when the target name (app name plus kind
suffix) is already in the snapshot, no create action for that name is
issued, and — when that bucket kind is configured — a skip is logged
instead. -/
theorem launch_bucket_creation_idempotent
    (flags : NuxflyFlags) (app : Str) (existing : List Str) (k : BucketKind)
    (hmem : app ++ bucketSuffix k ∈ existing) :
    BucketAction.create (app ++ bucketSuffix k) ∉
      launchBucketPhase flags app existing ∧
    (bucketKindEnabled flags k = true →
      BucketAction.skipExisting (app ++ bucketSuffix k) ∈
        launchBucketPhase flags app existing) := by
  have hcontains : existing.contains (app ++ bucketSuffix k) = true := by
    simpa [List.contains] using List.elem_iff.mpr hmem
  have hinv : ∀ n m, bucketStep existing n = .create m →
      n = m ∧ existing.contains n = false := by
    intro n m h
    unfold bucketStep at h
    split at h
    · exact absurd h (by simp)
    · cases h
      exact ⟨rfl, by simp_all⟩
  constructor
  · intro hcreate
    have hbranch : ∀ (b : Bool) (n : Str),
        BucketAction.create (app ++ bucketSuffix k) ∈
          (if b then [bucketStep existing n] else []) → False := by
      intro b n hb
      have heq : bucketStep existing n = .create (app ++ bucketSuffix k) := by
        cases b <;> simp_all
      obtain ⟨rfl, hfc⟩ := hinv _ _ heq
      rw [hcontains] at hfc
      exact Bool.noConfusion hfc
    rcases List.mem_append.mp hcreate with hc | hc
    · rcases List.mem_append.mp hc with hc' | hc'
      · exact hbranch _ _ hc'
      · exact hbranch _ _ hc'
    · exact hbranch _ _ hc
  · intro hk
    have hstep : bucketStep existing (app ++ bucketSuffix k) =
        .skipExisting (app ++ bucketSuffix k) := by
      unfold bucketStep
      rw [hcontains]
      rfl
    cases k <;>
      simp only [bucketKindEnabled] at hk <;>
      simp [launchBucketPhase, hk, hstep, bucketSuffix] at hstep ⊢

/-- Witness for C8 at a concrete snapshot. -/
theorem launch_bucket_creation_idempotent_witness :
    BucketAction.create (s2l "demo" ++ bucketSuffix .litestream) ∉
      launchBucketPhase { litestream := true, publicStorage := true } (s2l "demo")
        [s2l "demo-litestream"] ∧
    BucketAction.skipExisting (s2l "demo" ++ bucketSuffix .litestream) ∈
      launchBucketPhase { litestream := true, publicStorage := true } (s2l "demo")
        [s2l "demo-litestream"] :=
  ⟨(launch_bucket_creation_idempotent { litestream := true, publicStorage := true }
      (s2l "demo") [s2l "demo-litestream"] .litestream (by decide)).1,
   (launch_bucket_creation_idempotent { litestream := true, publicStorage := true }
      (s2l "demo") [s2l "demo-litestream"] .litestream (by decide)).2 rfl⟩

/-- `Except` bind on a success value (definitional; stated for `rw`). -/
theorem except_ok_bind {ε α β : Type} (x : α) (f : α → Except ε β) :
    (Except.ok (ε := ε) x >>= f) = f x := rfl

/-! ## Theorems: environment-specific descriptor resolution (claims C4, C5) -/

/-- C4.  With both `fly.toml` and `fly.staging.toml` on disk and
`NUXFLY_ENV` unset, the descriptor-path resolution throws the
"environment not set" error (exit code 2) rather than silently picking a
file, and `loadConfig` (through which every command obtains the descriptor
path) fails with the same error. -/
theorem env_ambiguity_fails (fs : Fs) (env : ProcEnv) (nuxt : NuxtCfg)
    (_hfly : s2l "fly.toml" ∈ readdirSyncF fs)
    (hstaging : s2l "fly.staging.toml" ∈ readdirSyncF fs)
    (henv : env.nuxflyEnv = none) :
    getEnvironmentSpecificFlyTomlPath fs env = .error mkNuxflyEnvNotSetError ∧
    (existsSyncF fs (s2l "nuxt.config.ts") = true →
      loadConfig fs env nuxt = .error mkNuxflyEnvNotSetError) ∧
    mkNuxflyEnvNotSetError.exitCode = 2 ∧
    mkNuxflyEnvNotSetError.kind = .nuxflyEnvNotSet := by
  have hasf : hasEnvironmentSpecificFiles fs = true := by
    unfold hasEnvironmentSpecificFiles
    rw [List.any_eq_true]
    exact ⟨_, hstaging, by decide⟩
  have hget : getEnvironmentSpecificFlyTomlPath fs env =
      .error mkNuxflyEnvNotSetError := by
    unfold getEnvironmentSpecificFlyTomlPath
    rw [henv]
    simp [hasf, jsTruthyStr]
  refine ⟨hget, ?_, by decide, by decide⟩
  intro hnuxt
  unfold loadConfig
  rw [hnuxt, if_neg (by simp), hget]
  rfl

/-- Witness for C4 at a concrete project directory. -/
theorem env_ambiguity_fails_witness :
    getEnvironmentSpecificFlyTomlPath
      ⟨[(s2l "nuxt.config.ts", []), (s2l "fly.toml", []),
        (s2l "fly.staging.toml", [])]⟩ {} = .error mkNuxflyEnvNotSetError ∧
    loadConfig
      ⟨[(s2l "nuxt.config.ts", []), (s2l "fly.toml", []),
        (s2l "fly.staging.toml", [])]⟩ {} {} = .error mkNuxflyEnvNotSetError :=
  ⟨(env_ambiguity_fails
      ⟨[(s2l "nuxt.config.ts", []), (s2l "fly.toml", []),
        (s2l "fly.staging.toml", [])]⟩ {} {} (by decide) (by decide) rfl).1,
   (env_ambiguity_fails
      ⟨[(s2l "nuxt.config.ts", []), (s2l "fly.toml", []),
        (s2l "fly.staging.toml", [])]⟩ {} {} (by decide) (by decide) rfl).2.1
     (by decide)⟩

/-- C5.  With no descriptor file and no environment-suffixed descriptor
files on disk and `NUXFLY_ENV` unset, `loadConfig` succeeds (the unsuffixed
`fly.toml` path is the implicit production default — no "environment not
set" error), the resolved region is unset, and `getRegion` falls back to
the fixed default `'ord'`. -/
theorem loadConfig_single_env_defaults (fs : Fs) (env : ProcEnv) (nuxt : NuxtCfg)
    (hnuxt : existsSyncF fs (s2l "nuxt.config.ts") = true)
    (hnoenvfiles : ∀ f ∈ readdirSyncF fs, matchesEnvTomlName f = false)
    (hnofly : existsSyncF fs (s2l "fly.toml") = false)
    (_henv : env.nuxflyEnv = none) :
    ∃ cfg, loadConfig fs env nuxt = .ok cfg ∧ cfg.region = none ∧
      getRegion cfg = s2l "ord" := by
  have hasf : hasEnvironmentSpecificFiles fs = false := by
    unfold hasEnvironmentSpecificFiles
    rw [List.any_eq_false]
    intro f hf
    simp [hnoenvfiles f hf]
  have hget : getEnvironmentSpecificFlyTomlPath fs env = .ok (s2l "fly.toml") := by
    unfold getEnvironmentSpecificFlyTomlPath
    simp [hasf]
  unfold loadConfig
  rw [hnuxt, if_neg (by simp), hget]
  rw [except_ok_bind, hnofly]
  dsimp only
  by_cases happ : jsTruthyStr env.flyApp = true
  · rw [if_pos happ]
    exact ⟨_, rfl, rfl, rfl⟩
  · rw [if_neg happ]
    exact ⟨_, rfl, rfl, rfl⟩

/-- Witness for C5 at a concrete project directory. -/
theorem loadConfig_single_env_defaults_witness :
    ∃ cfg, loadConfig ⟨[(s2l "nuxt.config.ts", [])]⟩ {} {} = .ok cfg ∧
      cfg.region = none ∧ getRegion cfg = s2l "ord" :=
  loadConfig_single_env_defaults ⟨[(s2l "nuxt.config.ts", [])]⟩ {} {}
    (by decide) (by decide) (by decide) rfl

/-! ## Theorems: configuration validation (claim C6) -/

/-- Counterexample to C6 as stated: the memory check is guarded by
JavaScript truthiness (`config.memory && ...`), so a config whose memory is
the *empty* string — which does not match `/^\d+(mb|gb)$/i` — passes
validation without any `ConfigError`. -/
theorem validateConfig_empty_memory_counterexample :
    validateConfig { memory := some [] } = .ok () ∧
    isValidMemoryFormat [] = false := ⟨rfl, rfl⟩

/-- C6 (amended).  (i) Any config with numeric `instances.min >
instances.max` is rejected with a `ConfigError` (exit code 3) naming an
`instances` field; (ii) any config that passes the instances checks and has
a *non-empty* memory string outside `/^\d+(mb|gb)$/i` is rejected with the
memory `ConfigError`; (iii) a config that passes validation satisfies
`instances.min ≤ instances.max` whenever both are numbers, and its memory,
whenever present and non-empty, matches the pattern.  (An empty memory
string is falsy and escapes validation; see the counterexample.) -/
theorem validateConfig_invariants :
    (∀ (cfg : CliConfig) (inst : CliInstances) (mn mx : Int),
      cfg.instances = some inst → inst.min = some mn → inst.max = some mx →
      mn > mx →
      ∃ e, validateConfig cfg = .error e ∧ e.kind = .configError ∧
        e.exitCode = 3 ∧ jsIncludes (s2l "instances.m") e.message = true) ∧
    (∀ (cfg : CliConfig) (m : Str),
      cfg.memory = some m → m ≠ [] → isValidMemoryFormat m = false →
      instancesChecksPass cfg = true →
      validateConfig cfg =
        .error (mkConfigError
          (s2l "memory must be in format like \"512mb\", \"1gb\", etc."))) ∧
    (∀ cfg : CliConfig, validateConfig cfg = .ok () →
      (∀ inst mn mx, cfg.instances = some inst → inst.min = some mn →
        inst.max = some mx → mn ≤ mx) ∧
      (∀ m, cfg.memory = some m → m ≠ [] → isValidMemoryFormat m = true)) := by
  refine ⟨?_, ?_, ?_⟩
  · intro cfg inst mn mx hinst hmn hmx hgt
    obtain ⟨nx, app, reg, mem, ck, cp, insts, env2, vols, secs, rt⟩ := cfg
    replace hinst : insts = some inst := hinst
    subst hinst
    have hg : jsGtOpt inst.min inst.max = true := by
      rw [hmn, hmx]
      simpa [jsGtOpt] using hgt
    simp only [validateConfig, instancesCheck]
    by_cases h0 : jsNumLt inst.min 0 = true
    · rw [if_pos h0]
      exact ⟨_, rfl, by decide, by decide, by decide⟩
    rw [if_neg h0]
    by_cases h1 : jsNumLt inst.max 1 = true
    · rw [if_pos h1]
      exact ⟨_, rfl, by decide, by decide, by decide⟩
    rw [if_neg h1, if_pos hg]
    exact ⟨_, rfl, by decide, by decide, by decide⟩
  · intro cfg m hm hne hbad hpass
    obtain ⟨nx, app, reg, mem, ck, cp, insts, env2, vols, secs, rt⟩ := cfg
    replace hm : mem = some m := hm
    subst hm
    have hc : (jsTruthyStr (some m) && !(isValidMemoryFormat ((some m).getD []))) = true := by
      rcases m with _ | ⟨c, cs⟩
      · exact absurd rfl hne
      · simp [jsTruthyStr, hbad]
    rcases insts with _ | inst
    · simp only [validateConfig, instancesCheck, hc, if_true]
    · replace hpass : (!(jsNumLt inst.min 0) && !(jsNumLt inst.max 1) &&
          !(jsGtOpt inst.min inst.max)) = true := hpass
      simp only [Bool.and_eq_true, Bool.not_eq_true'] at hpass
      simp only [validateConfig, instancesCheck, hpass.1.1, hpass.1.2, hpass.2,
        Bool.false_eq_true, if_false, hc, if_true]
  · intro cfg hok
    obtain ⟨nx, app, reg, mem, ck, cp, insts, env2, vols, secs, rt⟩ := cfg
    rcases insts with _ | inst
    · simp only [validateConfig, instancesCheck] at hok
      refine ⟨fun inst' mn mx hi => absurd hi (by simp), ?_⟩
      intro m hm hne
      replace hm : mem = some m := hm
      subst hm
      by_cases hv : isValidMemoryFormat m = true
      · exact hv
      · exfalso
        simp only [Bool.not_eq_true] at hv
        have hc : (jsTruthyStr (some m) && !(isValidMemoryFormat ((some m).getD []))) = true := by
          rcases m with _ | ⟨c, cs⟩
          · exact absurd rfl hne
          · simp [jsTruthyStr, hv]
        rw [if_pos hc] at hok
        exact Except.noConfusion hok
    · simp only [validateConfig, instancesCheck] at hok
      by_cases h0 : jsNumLt inst.min 0 = true
      · rw [if_pos h0] at hok
        exact absurd hok (by simp)
      rw [if_neg h0] at hok
      by_cases h1 : jsNumLt inst.max 1 = true
      · rw [if_pos h1] at hok
        exact absurd hok (by simp)
      rw [if_neg h1] at hok
      by_cases hg : jsGtOpt inst.min inst.max = true
      · rw [if_pos hg] at hok
        exact absurd hok (by simp)
      rw [if_neg hg] at hok
      refine ⟨?_, ?_⟩
      · intro inst' mn mx hi hmn hmx
        replace hi : some inst = some inst' := hi
        injection hi with hi2
        subst hi2
        rw [hmn, hmx] at hg
        simp only [jsGtOpt, decide_eq_true_eq] at hg
        omega
      · intro m hm hne
        replace hm : mem = some m := hm
        subst hm
        by_cases hv : isValidMemoryFormat m = true
        · exact hv
        · exfalso
          simp only [Bool.not_eq_true] at hv
          have hc : (jsTruthyStr (some m) && !(isValidMemoryFormat ((some m).getD []))) = true := by
            rcases m with _ | ⟨c, cs⟩
            · exact absurd rfl hne
            · simp [jsTruthyStr, hv]
          rw [if_pos hc] at hok
          exact Except.noConfusion hok

/-- Witness for C6 (amended) at concrete configurations. -/
theorem validateConfig_invariants_witness :
    (∃ e, validateConfig { instances := some { min := some 5, max := some 2 } } =
        .error e ∧ e.kind = .configError ∧ e.exitCode = 3 ∧
        jsIncludes (s2l "instances.m") e.message = true) ∧
    validateConfig { memory := some (s2l "bogus") } =
      .error (mkConfigError
        (s2l "memory must be in format like \"512mb\", \"1gb\", etc.")) ∧
    (1 : Int) ≤ 3 ∧ isValidMemoryFormat (s2l "512mb") = true :=
  ⟨validateConfig_invariants.1 _ _ 5 2 rfl rfl rfl (by decide),
   validateConfig_invariants.2.1 _ (s2l "bogus") rfl (by decide) (by decide)
     (by decide),
   (validateConfig_invariants.2.2
      ({ memory := some (s2l "512mb"),
         instances := some { min := some 1, max := some 3 } } : CliConfig)
      rfl).1 _ 1 3 rfl rfl rfl,
   (validateConfig_invariants.2.2
      ({ memory := some (s2l "512mb"),
         instances := some { min := some 1, max := some 3 } } : CliConfig)
      rfl).2 _ rfl (by decide)⟩

/-! ## Lemmas: Levenshtein distance (claim C9) -/

theorem ed_nil_left (ys : Str) : Ed [] ys ys.length := by
  induction ys with
  | nil => exact Ed.nil
  | cons y ys ih => exact Ed.ins y ih

theorem ed_nil_right (xs : Str) : Ed xs [] xs.length := by
  induction xs with
  | nil => exact Ed.nil
  | cons x xs ih => exact Ed.del x ih

theorem ed_refl (a : Str) : Ed a a 0 := by
  induction a with
  | nil => exact Ed.nil
  | cons c a ih => exact Ed.keep c ih

/-- The recursive Levenshtein value is achievable as a structural edit
script. -/
theorem ed_of_levRec (a b : Str) : Ed a b (levRec a b) := by
  induction a, b using levRec.induct with
  | case1 ys => simpa [levRec] using ed_nil_left ys
  | case2 xs => simpa [levRec] using ed_nil_right xs
  | case3 xs c ys ih => simpa [levRec] using Ed.keep c ih
  | case4 x xs y ys hxy ih1 ih2 ih3 =>
    rw [levRec, if_neg hxy]
    have h3 : min (min (levRec xs ys + 1) (levRec xs (y :: ys) + 1))
          (levRec (x :: xs) ys + 1) = levRec xs ys + 1 ∨
        min (min (levRec xs ys + 1) (levRec xs (y :: ys) + 1))
          (levRec (x :: xs) ys + 1) = levRec xs (y :: ys) + 1 ∨
        min (min (levRec xs ys + 1) (levRec xs (y :: ys) + 1))
          (levRec (x :: xs) ys + 1) = levRec (x :: xs) ys + 1 := by
      omega
    rcases h3 with h | h | h <;> rw [h]
    · exact Ed.subst x y ih1
    · exact Ed.del x ih2
    · exact Ed.ins y ih3

theorem levRec_nil_right (xs : Str) : levRec xs [] = xs.length := by
  cases xs <;> simp [levRec]

/-- `levRec` changes by at most one under a single edit at the head of
either argument (five inequalities proven jointly by strong induction on
the total length). -/
theorem lev_lipschitz : ∀ (N : Nat) (a b : Str), a.length + b.length ≤ N →
    (∀ x, levRec (x :: a) b ≤ levRec a b + 1) ∧
    (∀ y, levRec a (y :: b) ≤ levRec a b + 1) ∧
    (∀ x y, levRec (x :: a) (y :: b) ≤ levRec a b + 1) ∧
    (∀ y, levRec a b ≤ levRec a (y :: b) + 1) ∧
    (∀ x, levRec a b ≤ levRec (x :: a) b + 1) := by
  intro N
  induction N with
  | zero =>
    intro a b hlen
    have ha : a = [] := List.length_eq_zero.mp (by omega)
    have hb : b = [] := List.length_eq_zero.mp (by omega)
    subst ha hb
    refine ⟨fun x => ?_, fun y => ?_, fun x y => ?_, fun y => ?_, fun x => ?_⟩
    all_goals simp [levRec]
    all_goals (split_ifs <;> simp [levRec])
  | succ N ih =>
    intro a b hlen
    refine ⟨?_, ?_, ?_, ?_, ?_⟩
    · intro x
      cases b with
      | nil => simp [levRec_nil_right, levRec]
      | cons y b' =>
        have hD := (ih a b' (by simp at hlen; omega)).2.2.2.1 y
        by_cases hxy : x = y
        · rw [levRec, if_pos hxy]
          omega
        · rw [levRec, if_neg hxy]
          omega
    · intro y
      cases a with
      | nil => simp [levRec]
      | cons x a' =>
        have hE := (ih a' b (by simp at hlen; omega)).2.2.2.2 x
        by_cases hxy : x = y
        · rw [levRec, if_pos hxy]
          omega
        · rw [levRec, if_neg hxy]
          omega
    · intro x y
      by_cases hxy : x = y
      · rw [levRec, if_pos hxy]
        omega
      · rw [levRec, if_neg hxy]
        omega
    · intro y
      cases a with
      | nil => simp [levRec]; omega
      | cons x a' =>
        have hA := (ih a' b (by simp at hlen; omega)).1 x
        have hD := (ih a' b (by simp at hlen; omega)).2.2.2.1 y
        by_cases hxy : x = y
        · rw [show levRec (x :: a') (y :: b) = levRec a' b from by
            rw [levRec, if_pos hxy]]
          omega
        · rw [show levRec (x :: a') (y :: b) =
              min (min (levRec a' b + 1) (levRec a' (y :: b) + 1))
                (levRec (x :: a') b + 1) from by rw [levRec, if_neg hxy]]
          omega
    · intro x
      cases b with
      | nil => simp [levRec_nil_right, levRec]; omega
      | cons y b' =>
        have hB := (ih a b' (by simp at hlen; omega)).2.1 y
        have hE := (ih a b' (by simp at hlen; omega)).2.2.2.2 x
        by_cases hxy : x = y
        · rw [show levRec (x :: a) (y :: b') = levRec a b' from by
            rw [levRec, if_pos hxy]]
          omega
        · rw [show levRec (x :: a) (y :: b') =
              min (min (levRec a b' + 1) (levRec a (y :: b') + 1))
                (levRec (x :: a) b' + 1) from by rw [levRec, if_neg hxy]]
          omega

/-- The recursive Levenshtein value is a lower bound on the cost of any
structural edit script. -/
theorem levRec_le_of_ed {a b : Str} {n : Nat} (h : Ed a b n) :
    levRec a b ≤ n := by
  induction h with
  | nil => simp [levRec]
  | keep c hsub ih =>
    rw [levRec, if_pos rfl]
    exact ih
  | subst x y hsub ih =>
    by_cases hxy : x = y
    · rw [levRec, if_pos hxy]
      omega
    · rw [levRec, if_neg hxy]
      omega
  | del x hsub ih =>
    exact le_trans ((lev_lipschitz _ _ _ le_rfl).1 x) (by omega)
  | ins y hsub ih =>
    exact le_trans ((lev_lipschitz _ _ _ le_rfl).2.1 y) (by omega)

/-- Prepending an insertion (at any position) to a structural script costs
at most one more. -/
theorem ed_insert_mid {l b : Str} {m : Nat} (h : Ed l b m) :
    ∀ u v (x : Char), l = u ++ v → ∃ m', m' ≤ m + 1 ∧ Ed (u ++ x :: v) b m' := by
  induction h with
  | nil =>
    intro u v x heq
    have hu : u = [] ∧ v = [] := by
      constructor <;> cases u <;> simp_all
    obtain ⟨rfl, rfl⟩ := hu
    exact ⟨1, le_rfl, Ed.del x Ed.nil⟩
  | keep c hsub ih =>
    intro u v x heq
    rcases u with _ | ⟨c0, u'⟩
    · simp only [List.nil_append] at heq ⊢
      subst heq
      exact ⟨_, le_rfl, Ed.del x (Ed.keep c hsub)⟩
    · injection heq with h1 h2
      subst h1
      obtain ⟨m', hle, hed⟩ := ih u' v x h2
      exact ⟨m', hle, Ed.keep _ hed⟩
  | subst xx yy hsub ih =>
    intro u v x heq
    rcases u with _ | ⟨c0, u'⟩
    · simp only [List.nil_append] at heq ⊢
      subst heq
      exact ⟨_, le_rfl, Ed.del x (Ed.subst xx yy hsub)⟩
    · injection heq with h1 h2
      subst h1
      obtain ⟨m', hle, hed⟩ := ih u' v x h2
      exact ⟨m' + 1, by omega, Ed.subst _ yy hed⟩
  | del xx hsub ih =>
    intro u v x heq
    rcases u with _ | ⟨c0, u'⟩
    · simp only [List.nil_append] at heq ⊢
      subst heq
      exact ⟨_, le_rfl, Ed.del x (Ed.del xx hsub)⟩
    · injection heq with h1 h2
      subst h1
      obtain ⟨m', hle, hed⟩ := ih u' v x h2
      exact ⟨m' + 1, by omega, Ed.del _ hed⟩
  | ins yy hsub ih =>
    intro u v x heq
    obtain ⟨m', hle, hed⟩ := ih u v x heq
    exact ⟨m' + 1, by omega, Ed.ins yy hed⟩

/-- Prepending a deletion (at any position) to a structural script costs at
most one more. -/
theorem ed_delete_mid {l b : Str} {m : Nat} (h : Ed l b m) :
    ∀ u v (x : Char), l = u ++ x :: v → ∃ m', m' ≤ m + 1 ∧ Ed (u ++ v) b m' := by
  induction h with
  | nil =>
    intro u v x heq
    exact absurd heq (by cases u <;> simp)
  | keep c hsub ih =>
    intro u v x heq
    rcases u with _ | ⟨c0, u'⟩
    · injection heq with h1 h2
      subst h2
      exact ⟨_, by omega, Ed.ins c hsub⟩
    · injection heq with h1 h2
      subst h1
      obtain ⟨m', hle, hed⟩ := ih u' v x h2
      exact ⟨m', hle, Ed.keep _ hed⟩
  | subst xx yy hsub ih =>
    intro u v x heq
    rcases u with _ | ⟨c0, u'⟩
    · injection heq with h1 h2
      subst h2
      exact ⟨_, by omega, Ed.ins yy hsub⟩
    · injection heq with h1 h2
      subst h1
      obtain ⟨m', hle, hed⟩ := ih u' v x h2
      exact ⟨m' + 1, by omega, Ed.subst _ yy hed⟩
  | del xx hsub ih =>
    intro u v x heq
    rcases u with _ | ⟨c0, u'⟩
    · injection heq with h1 h2
      subst h2
      exact ⟨_, by omega, hsub⟩
    · injection heq with h1 h2
      subst h1
      obtain ⟨m', hle, hed⟩ := ih u' v x h2
      exact ⟨m' + 1, by omega, Ed.del _ hed⟩
  | ins yy hsub ih =>
    intro u v x heq
    obtain ⟨m', hle, hed⟩ := ih u v x heq
    exact ⟨m' + 1, by omega, Ed.ins yy hed⟩

/-- Prepending a substitution (at any position) to a structural script
costs at most one more. -/
theorem ed_subst_mid {l b : Str} {m : Nat} (h : Ed l b m) :
    ∀ u v (x y : Char), l = u ++ y :: v →
      ∃ m', m' ≤ m + 1 ∧ Ed (u ++ x :: v) b m' := by
  induction h with
  | nil =>
    intro u v x y heq
    exact absurd heq (by cases u <;> simp)
  | keep c hsub ih =>
    intro u v x y heq
    rcases u with _ | ⟨c0, u'⟩
    · injection heq with h1 h2
      subst h2
      exact ⟨_, le_rfl, Ed.subst x c hsub⟩
    · injection heq with h1 h2
      subst h1
      obtain ⟨m', hle, hed⟩ := ih u' v x y h2
      exact ⟨m', hle, Ed.keep _ hed⟩
  | subst xx yy hsub ih =>
    intro u v x y heq
    rcases u with _ | ⟨c0, u'⟩
    · injection heq with h1 h2
      subst h2
      exact ⟨_, by omega, Ed.subst x yy hsub⟩
    · injection heq with h1 h2
      subst h1
      obtain ⟨m', hle, hed⟩ := ih u' v x y h2
      exact ⟨m' + 1, by omega, Ed.subst _ yy hed⟩
  | del xx hsub ih =>
    intro u v x y heq
    rcases u with _ | ⟨c0, u'⟩
    · injection heq with h1 h2
      subst h2
      exact ⟨_, by omega, Ed.del x hsub⟩
    · injection heq with h1 h2
      subst h1
      obtain ⟨m', hle, hed⟩ := ih u' v x y h2
      exact ⟨m' + 1, by omega, Ed.del _ hed⟩
  | ins yy hsub ih =>
    intro u v x y heq
    obtain ⟨m', hle, hed⟩ := ih u v x y heq
    exact ⟨m' + 1, by omega, Ed.ins yy hed⟩

theorem editStep_cons {a b : Str} (c : Char) (h : EditStep a b) :
    EditStep (c :: a) (c :: b) := by
  cases h with
  | del u v x => simpa using EditStep.del (c :: u) v x
  | ins u v x => simpa using EditStep.ins (c :: u) v x
  | subst u v x y => simpa using EditStep.subst (c :: u) v x y

theorem reaches_cons {n : Nat} {a b : Str} (c : Char) (h : Reaches n a b) :
    Reaches n (c :: a) (c :: b) := by
  induction n generalizing a with
  | zero => exact congrArg (c :: ·) h
  | succ n ih =>
    obtain ⟨d, hstep, hr⟩ := h
    exact ⟨c :: d, editStep_cons c hstep, ih hr⟩

/-- Every structural edit script is realisable as an edit sequence. -/
theorem reaches_of_ed {a b : Str} {n : Nat} (h : Ed a b n) : Reaches n a b := by
  induction h with
  | nil => exact rfl
  | keep c hsub ih => exact reaches_cons c ih
  | subst x y hsub ih =>
    exact ⟨y :: _, by simpa using EditStep.subst [] _ x y, reaches_cons y ih⟩
  | del x hsub ih =>
    exact ⟨_, by simpa using EditStep.del [] _ x, ih⟩
  | ins y hsub ih =>
    exact ⟨y :: _, by simpa using EditStep.ins [] _ y, reaches_cons y ih⟩

/-- Every edit sequence yields a structural edit script of no greater
cost. -/
theorem ed_of_reaches : ∀ {n : Nat} {a b : Str}, Reaches n a b →
    ∃ m, m ≤ n ∧ Ed a b m := by
  intro n
  induction n with
  | zero =>
    intro a b h
    exact ⟨0, le_rfl, h ▸ ed_refl a⟩
  | succ n ih =>
    intro a b h
    obtain ⟨c, hstep, hr⟩ := h
    obtain ⟨m, hm, hed⟩ := ih hr
    cases hstep with
    | del u v x =>
      obtain ⟨m', hle, hed'⟩ := ed_insert_mid hed u v x rfl
      exact ⟨m', by omega, hed'⟩
    | ins u v x =>
      obtain ⟨m', hle, hed'⟩ := ed_delete_mid hed u v x rfl
      exact ⟨m', by omega, hed'⟩
    | subst u v x y =>
      obtain ⟨m', hle, hed'⟩ := ed_subst_mid hed u v x y rfl
      exact ⟨m', by omega, hed'⟩

theorem editStep_symm {a b : Str} (h : EditStep a b) : EditStep b a := by
  cases h with
  | del u v x => exact EditStep.ins u v x
  | ins u v x => exact EditStep.del u v x
  | subst u v x y => exact EditStep.subst u v y x

theorem reaches_trans {m n : Nat} : ∀ {a b c : Str},
    Reaches m a b → Reaches n b c → Reaches (m + n) a c := by
  induction m with
  | zero =>
    intro a b c h1 h2
    rw [Nat.zero_add]
    exact h1 ▸ h2
  | succ m ih =>
    intro a b c h1 h2
    obtain ⟨d, hstep, hr⟩ := h1
    rw [Nat.succ_add]
    exact ⟨d, hstep, ih hr h2⟩

theorem reaches_symm : ∀ {n : Nat} {a b : Str}, Reaches n a b → Reaches n b a := by
  intro n
  induction n with
  | zero => intro a b h; exact h.symm
  | succ n ih =>
    intro a b h
    obtain ⟨c, hstep, hr⟩ := h
    exact reaches_trans (ih hr) ⟨a, editStep_symm hstep, rfl⟩

theorem editStep_reverse {a b : Str} (h : EditStep a b) :
    EditStep a.reverse b.reverse := by
  cases h with
  | del u v x =>
    simpa [List.reverse_append, List.append_assoc] using
      EditStep.del v.reverse u.reverse x
  | ins u v x =>
    simpa [List.reverse_append, List.append_assoc] using
      EditStep.ins v.reverse u.reverse x
  | subst u v x y =>
    simpa [List.reverse_append, List.append_assoc] using
      EditStep.subst v.reverse u.reverse x y

theorem reaches_reverse {n : Nat} : ∀ {a b : Str}, Reaches n a b →
    Reaches n a.reverse b.reverse := by
  induction n with
  | zero => intro a b h; exact congrArg List.reverse h
  | succ n ih =>
    intro a b h
    obtain ⟨c, hstep, hr⟩ := h
    exact ⟨c.reverse, editStep_reverse hstep, ih hr⟩

theorem charAt_eq_get {s : Str} {i : Nat} (h : i < s.length) :
    charAt s i = s.get ⟨i, h⟩ := by
  simp [charAt, List.getD_eq_getElem, List.get_eq_getElem, h]

theorem take_succ_reverse {s : Str} {j : Nat} (h : j < s.length) :
    (s.take (j + 1)).reverse = s.get ⟨j, h⟩ :: (s.take j).reverse := by
  rw [List.take_succ]
  simp [List.getElem?_eq_getElem h, List.get_eq_getElem]

/-- `matrix[i][j]` holds the recursive Levenshtein distance between the
reversed `j`-prefix of `str1` and the reversed `i`-prefix of `str2`. -/
theorem levCell_eq_levRec (str1 str2 : Str) :
    ∀ (k i j : Nat), i + j ≤ k → i ≤ str2.length → j ≤ str1.length →
      levCell str1 str2 i j =
        levRec ((str1.take j).reverse) ((str2.take i).reverse) := by
  intro k
  induction k with
  | zero =>
    intro i j hk hi hj
    have hi0 : i = 0 := by omega
    have hj0 : j = 0 := by omega
    subst hi0 hj0
    simp [levCell, levRec]
  | succ k ih =>
    intro i j hk hi hj
    cases i with
    | zero =>
      simp [levCell, levRec_nil_right, Nat.min_eq_left hj]
    | succ i' =>
      cases j with
      | zero =>
        simp [levCell, levRec, Nat.min_eq_left hi]
      | succ j' =>
        have hi' : i' < str2.length := by omega
        have hj' : j' < str1.length := by omega
        rw [take_succ_reverse hj', take_succ_reverse hi']
        have hc1 : charAt str2 i' = str2.get ⟨i', hi'⟩ := charAt_eq_get hi'
        have hc2 : charAt str1 j' = str1.get ⟨j', hj'⟩ := charAt_eq_get hj'
        by_cases heq : str2.get ⟨i', hi'⟩ = str1.get ⟨j', hj'⟩
        · rw [show levCell str1 str2 (i' + 1) (j' + 1) = levCell str1 str2 i' j'
              from by rw [levCell, if_pos (by rw [hc1, hc2]; exact heq)]]
          rw [show levRec (str1.get ⟨j', hj'⟩ :: (str1.take j').reverse)
                (str2.get ⟨i', hi'⟩ :: (str2.take i').reverse) =
              levRec ((str1.take j').reverse) ((str2.take i').reverse)
              from by rw [levRec, if_pos heq.symm]]
          exact ih i' j' (by omega) (by omega) (by omega)
        · rw [show levCell str1 str2 (i' + 1) (j' + 1) =
              min (min (levCell str1 str2 i' j' + 1)
                   (levCell str1 str2 (i' + 1) j' + 1))
                (levCell str1 str2 i' (j' + 1) + 1)
              from by rw [levCell, if_neg (by rw [hc1, hc2]; exact heq)]]
          rw [show levRec (str1.get ⟨j', hj'⟩ :: (str1.take j').reverse)
                (str2.get ⟨i', hi'⟩ :: (str2.take i').reverse) =
              min (min (levRec ((str1.take j').reverse) ((str2.take i').reverse) + 1)
                   (levRec ((str1.take j').reverse)
                     (str2.get ⟨i', hi'⟩ :: (str2.take i').reverse) + 1))
                (levRec (str1.get ⟨j', hj'⟩ :: (str1.take j').reverse)
                  ((str2.take i').reverse) + 1)
              from by rw [levRec, if_neg (fun hh => heq hh.symm)]]
          have h1 := ih i' j' (by omega) (by omega) (by omega)
          have h2 := ih (i' + 1) j' (by omega) (by omega) (by omega)
          have h3 := ih i' (j' + 1) (by omega) (by omega) (by omega)
          rw [take_succ_reverse hi'] at h2
          rw [take_succ_reverse hj'] at h3
          rw [h1, h2, h3]

theorem levenshteinDistance_eq_levRec (str1 str2 : Str) :
    levenshteinDistance str1 str2 = levRec str1.reverse str2.reverse := by
  unfold levenshteinDistance
  rw [levCell_eq_levRec str1 str2 (str2.length + str1.length) _ _ le_rfl
    le_rfl le_rfl, List.take_length, List.take_length]

/-- C9.  `levenshteinDistance` computes the standard Levenshtein edit
distance: for all strings it is the least number of single-character
insertions, deletions and substitutions transforming the first into the
second; in particular it is symmetric, and it is zero exactly when the two
strings are equal. -/
theorem levenshteinDistance_correct (str1 str2 : Str) :
    IsLeast { n | Reaches n str1 str2 } (levenshteinDistance str1 str2) ∧
    levenshteinDistance str1 str2 = levenshteinDistance str2 str1 ∧
    (levenshteinDistance str1 str2 = 0 ↔ str1 = str2) := by
  have hleast : ∀ a b : Str,
      IsLeast { n | Reaches n a b } (levenshteinDistance a b) := by
    intro a b
    constructor
    · have h1 := reaches_of_ed (ed_of_levRec a.reverse b.reverse)
      have h2 := reaches_reverse h1
      rw [List.reverse_reverse, List.reverse_reverse] at h2
      rw [levenshteinDistance_eq_levRec]
      exact h2
    · intro n hn
      obtain ⟨m, hm, hed⟩ := ed_of_reaches (reaches_reverse hn)
      have h3 := levRec_le_of_ed hed
      rw [levenshteinDistance_eq_levRec]
      omega
  refine ⟨hleast str1 str2, ?_, ?_⟩
  · have hsets : { n | Reaches n str1 str2 } = { n | Reaches n str2 str1 } := by
      ext n
      exact ⟨reaches_symm, reaches_symm⟩
    exact (hleast str1 str2).unique (hsets ▸ hleast str2 str1)
  · constructor
    · intro h0
      have hmem := (hleast str1 str2).1
      rw [h0] at hmem
      exact hmem
    · intro heq
      subst heq
      have hmem0 : (0 : Nat) ∈ { n | Reaches n str1 str1 } := rfl
      have hlb := (hleast str1 str1).2 hmem0
      omega

/-! ## Lemmas: trimming and the key/value regex (claim C1) -/

theorem takeWhile_app_stop {p : Char → Bool} {l : Str} {c : Char} (r : Str)
    (hl : ∀ x ∈ l, p x = true) (hc : p c = false) :
    (l ++ c :: r).takeWhile p = l := by
  induction l with
  | nil => simp [List.takeWhile_cons, hc]
  | cons a l ih =>
    simp only [List.cons_append, List.takeWhile_cons, hl a (by simp), if_true]
    rw [ih (fun x hx => hl x (by simp [hx]))]

theorem dropWhile_app_stop {p : Char → Bool} {l : Str} {c : Char} (r : Str)
    (hl : ∀ x ∈ l, p x = true) (hc : p c = false) :
    (l ++ c :: r).dropWhile p = c :: r := by
  induction l with
  | nil => simp [List.dropWhile_cons, hc]
  | cons a l ih =>
    simp only [List.cons_append, List.dropWhile_cons, hl a (by simp), if_true]
    exact ih (fun x hx => hl x (by simp [hx]))

theorem dropWhile_all_app {p : Char → Bool} {l : Str} (y : Str)
    (hl : ∀ x ∈ l, p x = true) : (l ++ y).dropWhile p = y.dropWhile p := by
  induction l with
  | nil => rfl
  | cons a l ih =>
    simp only [List.cons_append, List.dropWhile_cons, hl a (by simp), if_true]
    exact ih (fun x hx => hl x (by simp [hx]))

theorem takeWhile_all {p : Char → Bool} {l : Str} (h : ∀ x ∈ l, p x = true) :
    l.takeWhile p = l := by
  induction l with
  | nil => rfl
  | cons a l ih =>
    simp [List.takeWhile_cons, h a (by simp), ih (fun x hx => h x (by simp [hx]))]

theorem ltrim_ws_app {sp x : Str} (hsp : ∀ c ∈ sp, isWs c = true) :
    ltrim (sp ++ x) = ltrim x := dropWhile_all_app x hsp

theorem trim_cons_ws {c : Char} {s : Str} (h : isWs c = true) :
    trim (c :: s) = trim s := by
  simp [trim, ltrim, List.dropWhile_cons, h]

theorem trim_eq_rtrim_cons {c : Char} {s : Str} (h : isWs c = false) :
    trim (c :: s) = rtrim (c :: s) := by
  simp [trim, ltrim, List.dropWhile_cons, h]

theorem rtrim_last {x : Str} {c : Char} (hc : isWs c = false) :
    rtrim (x ++ [c]) = x ++ [c] := by
  simp [rtrim, List.dropWhile_cons, hc]

theorem rtrim_ws_app {x t : Str} (ht : ∀ c ∈ t, isWs c = true) :
    rtrim (x ++ t) = rtrim x := by
  unfold rtrim
  rw [List.reverse_append,
      dropWhile_all_app _ (fun c hc => ht c (List.mem_reverse.mp hc))]

theorem trim_id_shape {c d : Char} (x : Str) (hc : isWs c = false)
    (hd : isWs d = false) :
    trim (c :: (x ++ [d])) = c :: (x ++ [d]) := by
  rw [trim_eq_rtrim_cons hc, show c :: (x ++ [d]) = (c :: x) ++ [d] from rfl,
      rtrim_last hd]

theorem matchKV_quoted {key : Str} (val : Str) (hk : key ≠ [])
    (hkw : ∀ c ∈ key, isWordChar c = true) :
    matchKeyValue (key ++ ' ' :: '=' :: ' ' :: '"' :: (val ++ ['"'])) =
      some (key, '"' :: (val ++ ['"'])) := by
  simp only [matchKeyValue]
  rw [takeWhile_app_stop _ hkw (by decide), dropWhile_app_stop _ hkw (by decide),
      if_neg hk]
  simp [List.dropWhile_cons, show isWs ' ' = true from rfl,
        show isWs '=' = false from rfl, show isWs '"' = false from rfl]

theorem matchKV_plain {key : Str} {c : Char} (cs : Str) (hk : key ≠ [])
    (hkw : ∀ x ∈ key, isWordChar x = true) (hc : isWs c = false) :
    matchKeyValue (key ++ ' ' :: '=' :: ' ' :: c :: cs) = some (key, c :: cs) := by
  simp only [matchKeyValue]
  rw [takeWhile_app_stop _ hkw (by decide), dropWhile_app_stop _ hkw (by decide),
      if_neg hk]
  simp [List.dropWhile_cons, hc, show isWs ' ' = true from rfl,
        show isWs '=' = false from rfl]

theorem cleanValue_quoted (s : Str) : cleanValue ('"' :: (s ++ ['"'])) = s := by
  simp [cleanValue, show isQuote '"' = true from rfl, List.reverse_append]

theorem cleanValue_no_quote {s : Str} (h : ∀ c ∈ s, isQuote c = false) :
    cleanValue s = s := by
  cases s with
  | nil => rfl
  | cons c r =>
    simp only [cleanValue, h c (by simp), Bool.false_eq_true, if_false]
    cases hrev : (c :: r).reverse with
    | nil => exact absurd hrev (by simp)
    | cons d t =>
      have hd : d ∈ c :: r := by
        rw [← List.mem_reverse, hrev]; exact List.mem_cons_self d t
      simp only [h d hd, Bool.false_eq_true, if_false]

theorem wordChar_ne {c d : Char} (h : isWordChar c = true)
    (hd : isWordChar d = false) : c ≠ d := by
  intro he; rw [he, hd] at h; cases h

theorem wordChar_not_ws {c : Char} (h : isWordChar c = true) : isWs c = false := by
  have h1 : c ≠ ' ' := wordChar_ne h (by decide)
  have h2 : c ≠ '\t' := wordChar_ne h (by decide)
  have h3 : c ≠ '\n' := wordChar_ne h (by decide)
  have h4 : c ≠ '\r' := wordChar_ne h (by decide)
  simp [isWs, Char.isWhitespace, h1, h2, h3, h4]

/-! ## Lemmas: decimal rendering round-trips through `parseInt` (claim C1) -/

theorem char_digit_facts {d : Nat} (h : d < 10) :
    isWs (Char.ofNat (48 + d)) = false ∧ Char.ofNat (48 + d) ≠ '\n' ∧
      isQuote (Char.ofNat (48 + d)) = false ∧ Char.ofNat (48 + d) ≠ '-' ∧
      Char.ofNat (48 + d) ≠ '+' ∧ (Char.ofNat (48 + d)).isDigit = true ∧
      (Char.ofNat (48 + d)).toNat = 48 + d := by
  interval_cases d <;> exact (by decide)

theorem natToStr_chars {n : Nat} :
    ∀ x ∈ natToStr n, ∃ d, d < 10 ∧ x = Char.ofNat (48 + d) := by
  intro x hx
  by_cases h0 : n = 0
  · subst h0
    have hx0 : x = '0' := by
      simpa [natToStr, show (s2l "0" : Str) = ['0'] from rfl] using hx
    exact ⟨0, by norm_num, by rw [hx0]⟩
  · rw [natToStr, if_neg h0] at hx
    rw [List.mem_map] at hx
    obtain ⟨d, hd, rfl⟩ := hx
    exact ⟨d, Nat.digits_lt_base (by norm_num) (List.mem_reverse.mp hd), rfl⟩

theorem natToStr_ne_nil (n : Nat) : natToStr n ≠ [] := by
  by_cases h0 : n = 0
  · subst h0; decide
  · rw [natToStr, if_neg h0]
    simp [Nat.digits_ne_nil_iff_ne_zero, h0]

theorem foldl_digits_aux (L : List Nat) (hL : ∀ d ∈ L, d < 10) (a : Nat) :
    (L.reverse.map (fun d => Char.ofNat (48 + d))).foldl
        (fun acc c => 10 * acc + (c.toNat - 48)) a =
      a * 10 ^ L.length + Nat.ofDigits 10 L := by
  induction L generalizing a with
  | nil => simp [Nat.ofDigits]
  | cons d L ih =>
    have hd := (char_digit_facts (hL d (by simp))).2.2.2.2.2.2
    rw [List.reverse_cons, List.map_append, List.foldl_append,
        ih (fun x hx => hL x (by simp [hx]))]
    simp only [List.map_cons, List.map_nil, List.foldl_cons, List.foldl_nil, hd,
               Nat.add_sub_cancel_left, Nat.ofDigits_cons, List.length_cons]
    ring

theorem parseDigits_natToStr (n : Nat) : parseDigits (natToStr n) = some n := by
  have hall : ∀ x ∈ natToStr n, x.isDigit = true := by
    intro x hx
    obtain ⟨d, hd, rfl⟩ := natToStr_chars x hx
    exact (char_digit_facts hd).2.2.2.2.2.1
  simp only [parseDigits, takeWhile_all hall, if_neg (natToStr_ne_nil n)]
  by_cases h0 : n = 0
  · subst h0; rfl
  · rw [natToStr, if_neg h0,
        foldl_digits_aux _ (fun d hd => Nat.digits_lt_base (by norm_num) hd) 0]
    simp [Nat.ofDigits_digits]

theorem jsParseInt_natToStr (n : Nat) : jsParseInt (natToStr n) = .int n := by
  obtain ⟨c, cs, hshape⟩ : ∃ c cs, natToStr n = c :: cs := by
    rcases hh : natToStr n with _ | ⟨c, cs⟩
    · exact absurd hh (natToStr_ne_nil n)
    · exact ⟨c, cs, rfl⟩
  obtain ⟨d, hd, hcd⟩ := natToStr_chars c (hshape ▸ List.mem_cons_self c cs)
  have hf := char_digit_facts hd
  have hcws : isWs c = false := by rw [hcd]; exact hf.1
  have hcm : c ≠ '-' := by rw [hcd]; exact hf.2.2.2.1
  have hcp : c ≠ '+' := by rw [hcd]; exact hf.2.2.2.2.1
  have hdw : (natToStr n).dropWhile isWs = natToStr n := by
    rw [hshape, List.dropWhile_cons, hcws]; simp
  unfold jsParseInt
  rw [hdw, hshape]
  split
  · next r heq => injection heq with h1 h2; exact absurd h1 hcm
  · next r heq => injection heq with h1 h2; exact absurd h1 hcp
  · rw [← hshape, parseDigits_natToStr]; rfl

theorem cleanValue_natToStr (n : Nat) : cleanValue (natToStr n) = natToStr n := by
  refine cleanValue_no_quote (fun x hx => ?_)
  obtain ⟨d, hd, rfl⟩ := natToStr_chars x hx
  exact (char_digit_facts hd).2.2.1

theorem natToStr_no_nl (n : Nat) : '\n' ∉ natToStr n := by
  intro hx
  obtain ⟨d, hd, hcd⟩ := natToStr_chars '\n' hx
  exact (char_digit_facts hd).2.1 hcd.symm

theorem jsNumToStr_natCast (m : Nat) : jsNumToStr (.int (m : Int)) = natToStr m := by
  have hnn : ¬((m : Int) < 0) := by omega
  simp [jsNumToStr, intToStr, hnn]

/-! ## Lemmas: per-line behaviour of the descriptor parser (claim C1) -/

/-- A line whose trimmed form starts with a word-like character and matches
the key/value regex is handled by the section dispatch. -/
theorem processLine_kv {st : PState} {line : Str} {kc : Char} {kt key value : Str}
    (htr : trim line = kc :: kt) (hkc1 : kc ≠ '#') (hkc2 : kc ≠ '[')
    (hmk : matchKeyValue (kc :: kt) = some (key, value)) :
    processLine st line = sectionKeyValue st key (cleanValue value) := by
  simp only [processLine, htr]
  rw [if_neg (by
        simp [jsStartsWith, List.isPrefixOf, show (s2l "#" : Str) = ['#'] from rfl,
              hkc1.symm]),
      if_neg (by
        simp [jsStartsWith, List.isPrefixOf, show (s2l "[" : Str) = ['['] from rfl,
              hkc2.symm]),
      hmk]

theorem processLine_blank (st : PState) : processLine st [] = st := rfl

theorem processLine_hdr_build (c : PConfig) (s : Option Str)
    (mt : Option (Option Str)) :
    processLine ⟨c, s, mt⟩ (s2l "[build]") = ⟨c, some (s2l "build"), mt⟩ := rfl

theorem processLine_hdr_vm (c : PConfig) (s : Option Str)
    (mt : Option (Option Str)) :
    processLine ⟨c, s, mt⟩ (s2l "[vm]") = ⟨c, some (s2l "vm"), mt⟩ := rfl

theorem processLine_hdr_scaling (c : PConfig) (s : Option Str)
    (mt : Option (Option Str)) :
    processLine ⟨c, s, mt⟩ (s2l "[scaling]") = ⟨c, some (s2l "scaling"), mt⟩ := rfl

theorem processLine_hdr_env (c : PConfig) (s : Option Str)
    (mt : Option (Option Str)) :
    processLine ⟨c, s, mt⟩ (s2l "[env]") = ⟨c, some (s2l "env"), mt⟩ := rfl

/-- The `[[mounts]]` header: `slice(1, -1)` yields `[mounts]`, which is not
the spelling `[[mounts]]` the parser later compares against. -/
theorem processLine_hdr_mounts (c : PConfig) (s : Option Str)
    (mt : Option (Option Str)) :
    processLine ⟨c, s, mt⟩ (s2l "[[mounts]]") = ⟨c, some (s2l "[mounts]"), mt⟩ := rfl

theorem processLine_cpuKind (c : PConfig) (mt : Option (Option Str)) :
    processLine ⟨c, some (s2l "vm"), mt⟩ (s2l "  cpu_kind = \"shared\"") =
      ⟨c, some (s2l "vm"), mt⟩ := rfl

theorem processLine_cpus (c : PConfig) (mt : Option (Option Str)) :
    processLine ⟨c, some (s2l "vm"), mt⟩ (s2l "  cpus = 1") =
      ⟨c, some (s2l "vm"), mt⟩ := rfl

theorem processLine_dockerDefault (c : PConfig) (mt : Option (Option Str)) :
    processLine ⟨c, some (s2l "build"), mt⟩
        (s2l "  dockerfile = \".nuxfly/Dockerfile\"") =
      ⟨c, some (s2l "build"), mt⟩ := rfl

theorem foldl_servicesLines (c : PConfig) (mt : Option (Option Str)) :
    List.foldl processLine ⟨c, some (s2l "build"), mt⟩ servicesLines =
      ⟨c, some (s2l "[processes]"), mt⟩ := rfl

theorem processLine_appLine (c : PConfig) (mt : Option (Option Str)) (a : Str) :
    processLine ⟨c, none, mt⟩ (appLine a) =
      ⟨{ c with app := some a }, none, mt⟩ := by
  have e1 : appLine a = 'a' :: ((s2l "pp = \"" ++ a) ++ ['"']) := by
    simp [appLine, show (s2l "app = \"" : Str) = 'a' :: s2l "pp = \"" from rfl,
          show (s2l "\"" : Str) = ['"'] from rfl]
  have htr : trim (appLine a) = 'a' :: ((s2l "pp = \"" ++ a) ++ ['"']) := by
    rw [e1]; exact trim_id_shape _ (by decide) (by decide)
  have hmk : matchKeyValue ('a' :: ((s2l "pp = \"" ++ a) ++ ['"'])) =
      some (s2l "app", '"' :: (a ++ ['"'])) := by
    rw [show 'a' :: ((s2l "pp = \"" ++ a) ++ ['"']) =
          s2l "app" ++ ' ' :: '=' :: ' ' :: '"' :: (a ++ ['"']) from by
      simp [show (s2l "app" : Str) = ['a', 'p', 'p'] from rfl,
            show (s2l "pp = \"" : Str) =
              'p' :: 'p' :: ' ' :: '=' :: ' ' :: '"' :: [] from rfl]]
    exact matchKV_quoted a (by decide) (by decide)
  rw [processLine_kv htr (by decide) (by decide) hmk, cleanValue_quoted]
  rfl

theorem processLine_regionLine (c : PConfig) (mt : Option (Option Str)) (r : Str) :
    processLine ⟨c, none, mt⟩ (regionLine r) =
      ⟨{ c with region := r }, none, mt⟩ := by
  have e1 : regionLine r = 'p' :: ((s2l "rimary_region = \"" ++ r) ++ ['"']) := by
    simp [regionLine,
          show (s2l "primary_region = \"" : Str) =
            'p' :: s2l "rimary_region = \"" from rfl,
          show (s2l "\"" : Str) = ['"'] from rfl]
  have htr : trim (regionLine r) = 'p' :: ((s2l "rimary_region = \"" ++ r) ++ ['"']) := by
    rw [e1]; exact trim_id_shape _ (by decide) (by decide)
  have hmk : matchKeyValue ('p' :: ((s2l "rimary_region = \"" ++ r) ++ ['"'])) =
      some (s2l "primary_region", '"' :: (r ++ ['"'])) := by
    rw [show 'p' :: ((s2l "rimary_region = \"" ++ r) ++ ['"']) =
          s2l "primary_region" ++ ' ' :: '=' :: ' ' :: '"' :: (r ++ ['"']) from by
      simp [show (s2l "primary_region" : Str) = 'p' :: s2l "rimary_region" from rfl,
            show (s2l "rimary_region = \"" : Str) =
              s2l "rimary_region" ++ [' ', '=', ' ', '"'] from rfl]]
    exact matchKV_quoted r (by decide) (by decide)
  rw [processLine_kv htr (by decide) (by decide) hmk, cleanValue_quoted]
  rfl

theorem processLine_memoryLine (c : PConfig) (mt : Option (Option Str)) (m : Str) :
    processLine ⟨c, some (s2l "vm"), mt⟩ (memoryLine m) =
      ⟨{ c with memory := m }, some (s2l "vm"), mt⟩ := by
  have e1 : memoryLine m = ' ' :: ' ' :: ('m' :: ((s2l "emory = \"" ++ m) ++ ['"'])) := by
    simp [memoryLine,
          show (s2l "  memory = \"" : Str) =
            ' ' :: ' ' :: 'm' :: s2l "emory = \"" from rfl,
          show (s2l "\"" : Str) = ['"'] from rfl]
  have htr : trim (memoryLine m) = 'm' :: ((s2l "emory = \"" ++ m) ++ ['"']) := by
    rw [e1, trim_cons_ws (by decide), trim_cons_ws (by decide)]
    exact trim_id_shape _ (by decide) (by decide)
  have hmk : matchKeyValue ('m' :: ((s2l "emory = \"" ++ m) ++ ['"'])) =
      some (s2l "memory", '"' :: (m ++ ['"'])) := by
    rw [show 'm' :: ((s2l "emory = \"" ++ m) ++ ['"']) =
          s2l "memory" ++ ' ' :: '=' :: ' ' :: '"' :: (m ++ ['"']) from by
      simp [show (s2l "memory" : Str) = 'm' :: s2l "emory" from rfl,
            show (s2l "emory = \"" : Str) =
              s2l "emory" ++ [' ', '=', ' ', '"'] from rfl]]
    exact matchKV_quoted m (by decide) (by decide)
  rw [processLine_kv htr (by decide) (by decide) hmk, cleanValue_quoted]
  rfl

theorem processLine_dockerLine (c : PConfig) (mt : Option (Option Str)) (d : Str) :
    processLine ⟨c, some (s2l "build"), mt⟩ (dockerLine d) =
      ⟨c, some (s2l "build"), mt⟩ := by
  have e1 : dockerLine d = ' ' :: ' ' :: ('d' :: ((s2l "ockerfile = \"" ++ d) ++ ['"'])) := by
    simp [dockerLine,
          show (s2l "  dockerfile = \"" : Str) =
            ' ' :: ' ' :: 'd' :: s2l "ockerfile = \"" from rfl,
          show (s2l "\"" : Str) = ['"'] from rfl]
  have htr : trim (dockerLine d) = 'd' :: ((s2l "ockerfile = \"" ++ d) ++ ['"']) := by
    rw [e1, trim_cons_ws (by decide), trim_cons_ws (by decide)]
    exact trim_id_shape _ (by decide) (by decide)
  have hmk : matchKeyValue ('d' :: ((s2l "ockerfile = \"" ++ d) ++ ['"'])) =
      some (s2l "dockerfile", '"' :: (d ++ ['"'])) := by
    rw [show 'd' :: ((s2l "ockerfile = \"" ++ d) ++ ['"']) =
          s2l "dockerfile" ++ ' ' :: '=' :: ' ' :: '"' :: (d ++ ['"']) from by
      simp [show (s2l "dockerfile" : Str) = 'd' :: s2l "ockerfile" from rfl,
            show (s2l "ockerfile = \"" : Str) =
              s2l "ockerfile" ++ [' ', '=', ' ', '"'] from rfl]]
    exact matchKV_quoted d (by decide) (by decide)
  rw [processLine_kv htr (by decide) (by decide) hmk]
  rfl

theorem processLine_sourceLine (c : PConfig) (mt : Option (Option Str)) (nm : Str) :
    processLine ⟨c, some (s2l "[mounts]"), mt⟩ (sourceLine nm) =
      ⟨c, some (s2l "[mounts]"), mt⟩ := by
  have e1 : sourceLine nm = ' ' :: ' ' :: ('s' :: ((s2l "ource = \"" ++ nm) ++ ['"'])) := by
    simp [sourceLine,
          show (s2l "  source = \"" : Str) =
            ' ' :: ' ' :: 's' :: s2l "ource = \"" from rfl,
          show (s2l "\"" : Str) = ['"'] from rfl]
  have htr : trim (sourceLine nm) = 's' :: ((s2l "ource = \"" ++ nm) ++ ['"']) := by
    rw [e1, trim_cons_ws (by decide), trim_cons_ws (by decide)]
    exact trim_id_shape _ (by decide) (by decide)
  have hmk : matchKeyValue ('s' :: ((s2l "ource = \"" ++ nm) ++ ['"'])) =
      some (s2l "source", '"' :: (nm ++ ['"'])) := by
    rw [show 's' :: ((s2l "ource = \"" ++ nm) ++ ['"']) =
          s2l "source" ++ ' ' :: '=' :: ' ' :: '"' :: (nm ++ ['"']) from by
      simp [show (s2l "source" : Str) = 's' :: s2l "ource" from rfl,
            show (s2l "ource = \"" : Str) =
              s2l "ource" ++ [' ', '=', ' ', '"'] from rfl]]
    exact matchKV_quoted nm (by decide) (by decide)
  rw [processLine_kv htr (by decide) (by decide) hmk]
  rfl

theorem processLine_destLine (c : PConfig) (mt : Option (Option Str)) (mnt : Str) :
    processLine ⟨c, some (s2l "[mounts]"), mt⟩ (destLine mnt) =
      ⟨c, some (s2l "[mounts]"), mt⟩ := by
  have e1 : destLine mnt =
      ' ' :: ' ' :: ('d' :: ((s2l "estination = \"" ++ mnt) ++ ['"'])) := by
    simp [destLine,
          show (s2l "  destination = \"" : Str) =
            ' ' :: ' ' :: 'd' :: s2l "estination = \"" from rfl,
          show (s2l "\"" : Str) = ['"'] from rfl]
  have htr : trim (destLine mnt) = 'd' :: ((s2l "estination = \"" ++ mnt) ++ ['"']) := by
    rw [e1, trim_cons_ws (by decide), trim_cons_ws (by decide)]
    exact trim_id_shape _ (by decide) (by decide)
  have hmk : matchKeyValue ('d' :: ((s2l "estination = \"" ++ mnt) ++ ['"'])) =
      some (s2l "destination", '"' :: (mnt ++ ['"'])) := by
    rw [show 'd' :: ((s2l "estination = \"" ++ mnt) ++ ['"']) =
          s2l "destination" ++ ' ' :: '=' :: ' ' :: '"' :: (mnt ++ ['"']) from by
      simp [show (s2l "destination" : Str) = 'd' :: s2l "estination" from rfl,
            show (s2l "estination = \"" : Str) =
              s2l "estination" ++ [' ', '=', ' ', '"'] from rfl]]
    exact matchKV_quoted mnt (by decide) (by decide)
  rw [processLine_kv htr (by decide) (by decide) hmk]
  rfl

theorem processLine_envLine (c : PConfig) (mt : Option (Option Str)) {k : Str}
    (v : Str) {kc : Char} {kt : Str} (hk : k = kc :: kt)
    (hkw : ∀ x ∈ k, isWordChar x = true) :
    processLine ⟨c, some (s2l "env"), mt⟩ (envLine (k, v)) =
      ⟨{ c with env := jsObjSet c.env k v }, some (s2l "env"), mt⟩ := by
  have hkcw : isWordChar kc = true := hkw kc (by rw [hk]; simp)
  have e1 : envLine (k, v) = ' ' :: ' ' :: (kc :: ((kt ++ s2l " = \"" ++ v) ++ ['"'])) := by
    simp [envLine, hk, show (s2l "  " : Str) = [' ', ' '] from rfl,
          show (s2l "\"" : Str) = ['"'] from rfl]
  have htr : trim (envLine (k, v)) = kc :: ((kt ++ s2l " = \"" ++ v) ++ ['"']) := by
    rw [e1, trim_cons_ws (by decide), trim_cons_ws (by decide)]
    exact trim_id_shape _ (wordChar_not_ws hkcw) (by decide)
  have hmk : matchKeyValue (kc :: ((kt ++ s2l " = \"" ++ v) ++ ['"'])) =
      some (k, '"' :: (v ++ ['"'])) := by
    rw [show kc :: ((kt ++ s2l " = \"" ++ v) ++ ['"']) =
          (kc :: kt) ++ ' ' :: '=' :: ' ' :: '"' :: (v ++ ['"']) from by
      simp [show (s2l " = \"" : Str) = [' ', '=', ' ', '"'] from rfl]]
    rw [← hk]
    exact matchKV_quoted v (by rw [hk]; simp) hkw
  rw [processLine_kv htr (wordChar_ne hkcw (by decide)) (wordChar_ne hkcw (by decide))
        hmk, cleanValue_quoted]
  rfl

theorem processLine_minLine (c : PConfig) (mt : Option (Option Str)) (mn : Nat) :
    processLine ⟨c, some (s2l "scaling"), mt⟩ (minLine (.int (mn : Int))) =
      ⟨{ c with instances := { c.instances with min := .int (mn : Int) } },
        some (s2l "scaling"), mt⟩ := by
  obtain ⟨ds, dl, hds⟩ : ∃ ds dl, natToStr mn = ds ++ [dl] := by
    rcases List.eq_nil_or_concat (natToStr mn) with h | ⟨ds, dl, h⟩
    · exact absurd h (natToStr_ne_nil mn)
    · exact ⟨ds, dl, by rw [h, List.concat_eq_append]⟩
  have hdl : isWs dl = false := by
    obtain ⟨d, hd, rfl⟩ := natToStr_chars dl (by rw [hds]; simp)
    exact (char_digit_facts hd).1
  obtain ⟨hc, hcs, hsh⟩ : ∃ hc hcs, natToStr mn = hc :: hcs := by
    rcases hh : natToStr mn with _ | ⟨hc, hcs⟩
    · exact absurd hh (natToStr_ne_nil mn)
    · exact ⟨hc, hcs, rfl⟩
  have hhws : isWs hc = false := by
    obtain ⟨d, hd, rfl⟩ := natToStr_chars hc (by rw [hsh]; simp)
    exact (char_digit_facts hd).1
  have e1 : minLine (.int (mn : Int)) =
      ' ' :: ' ' :: ('m' :: ((s2l "in_machines_running = " ++ ds) ++ [dl])) := by
    simp [minLine, jsNumToStr_natCast, hds,
          show (s2l "  min_machines_running = " : Str) =
            ' ' :: ' ' :: 'm' :: s2l "in_machines_running = " from rfl]
  have htr : trim (minLine (.int (mn : Int))) =
      'm' :: ((s2l "in_machines_running = " ++ ds) ++ [dl]) := by
    rw [e1, trim_cons_ws (by decide), trim_cons_ws (by decide)]
    exact trim_id_shape _ (by decide) hdl
  have hmk : matchKeyValue ('m' :: ((s2l "in_machines_running = " ++ ds) ++ [dl])) =
      some (s2l "min_machines_running", natToStr mn) := by
    rw [show 'm' :: ((s2l "in_machines_running = " ++ ds) ++ [dl]) =
          s2l "min_machines_running" ++ ' ' :: '=' :: ' ' :: (ds ++ [dl]) from by
      simp [show (s2l "min_machines_running" : Str) =
              'm' :: s2l "in_machines_running" from rfl,
            show (s2l "in_machines_running = " : Str) =
              s2l "in_machines_running" ++ [' ', '=', ' '] from rfl]]
    rw [← hds, hsh]
    exact matchKV_plain hcs (by decide) (by decide) hhws
  rw [processLine_kv htr (by decide) (by decide) hmk, cleanValue_natToStr,
      show sectionKeyValue ⟨c, some (s2l "scaling"), mt⟩ (s2l "min_machines_running")
          (natToStr mn) =
        ⟨{ c with instances :=
            { c.instances with min := jsParseInt (natToStr mn) } },
          some (s2l "scaling"), mt⟩ from rfl,
      jsParseInt_natToStr]

theorem processLine_maxLine (c : PConfig) (mt : Option (Option Str)) (mx : Nat) :
    processLine ⟨c, some (s2l "scaling"), mt⟩ (maxLine (.int (mx : Int))) =
      ⟨{ c with instances := { c.instances with max := .int (mx : Int) } },
        some (s2l "scaling"), mt⟩ := by
  obtain ⟨ds, dl, hds⟩ : ∃ ds dl, natToStr mx = ds ++ [dl] := by
    rcases List.eq_nil_or_concat (natToStr mx) with h | ⟨ds, dl, h⟩
    · exact absurd h (natToStr_ne_nil mx)
    · exact ⟨ds, dl, by rw [h, List.concat_eq_append]⟩
  have hdl : isWs dl = false := by
    obtain ⟨d, hd, rfl⟩ := natToStr_chars dl (by rw [hds]; simp)
    exact (char_digit_facts hd).1
  obtain ⟨hc, hcs, hsh⟩ : ∃ hc hcs, natToStr mx = hc :: hcs := by
    rcases hh : natToStr mx with _ | ⟨hc, hcs⟩
    · exact absurd hh (natToStr_ne_nil mx)
    · exact ⟨hc, hcs, rfl⟩
  have hhws : isWs hc = false := by
    obtain ⟨d, hd, rfl⟩ := natToStr_chars hc (by rw [hsh]; simp)
    exact (char_digit_facts hd).1
  have e1 : maxLine (.int (mx : Int)) =
      ' ' :: ' ' :: ('m' :: ((s2l "ax_machines_running = " ++ ds) ++ [dl])) := by
    simp [maxLine, jsNumToStr_natCast, hds,
          show (s2l "  max_machines_running = " : Str) =
            ' ' :: ' ' :: 'm' :: s2l "ax_machines_running = " from rfl]
  have htr : trim (maxLine (.int (mx : Int))) =
      'm' :: ((s2l "ax_machines_running = " ++ ds) ++ [dl]) := by
    rw [e1, trim_cons_ws (by decide), trim_cons_ws (by decide)]
    exact trim_id_shape _ (by decide) hdl
  have hmk : matchKeyValue ('m' :: ((s2l "ax_machines_running = " ++ ds) ++ [dl])) =
      some (s2l "max_machines_running", natToStr mx) := by
    rw [show 'm' :: ((s2l "ax_machines_running = " ++ ds) ++ [dl]) =
          s2l "max_machines_running" ++ ' ' :: '=' :: ' ' :: (ds ++ [dl]) from by
      simp [show (s2l "max_machines_running" : Str) =
              'm' :: s2l "ax_machines_running" from rfl,
            show (s2l "ax_machines_running = " : Str) =
              s2l "ax_machines_running" ++ [' ', '=', ' '] from rfl]]
    rw [← hds, hsh]
    exact matchKV_plain hcs (by decide) (by decide) hhws
  rw [processLine_kv htr (by decide) (by decide) hmk, cleanValue_natToStr,
      show sectionKeyValue ⟨c, some (s2l "scaling"), mt⟩ (s2l "max_machines_running")
          (natToStr mx) =
        ⟨{ c with instances :=
            { c.instances with max := jsParseInt (natToStr mx) } },
          some (s2l "scaling"), mt⟩ from rfl,
      jsParseInt_natToStr]

/-! ## Lemmas: folding the parser over whole blocks of lines (claim C1) -/

theorem jsObjSet_fresh {m : List (Str × Str)} {k : Str} (v : Str)
    (h : ∀ p ∈ m, p.1 ≠ k) : jsObjSet m k v = m ++ [(k, v)] := by
  induction m with
  | nil => rfl
  | cons p rest ih =>
    rcases p with ⟨k', v'⟩
    simp only [jsObjSet, if_neg (h (k', v') (by simp))]
    rw [ih (fun p hp => h p (by simp [hp]))]
    rfl

theorem foldl_jsObjSet_fresh (entries : List (Str × Str)) (m : List (Str × Str))
    (h : ∀ kv ∈ entries, ∀ p ∈ m, p.1 ≠ kv.1)
    (hnd : (entries.map Prod.fst).Nodup) :
    entries.foldl (fun acc kv => jsObjSet acc kv.1 kv.2) m = m ++ entries := by
  induction entries generalizing m with
  | nil => simp
  | cons kv rest ih =>
    rw [List.foldl_cons, jsObjSet_fresh kv.2 (fun p hp => h kv (by simp) p hp)]
    rw [List.map_cons, List.nodup_cons] at hnd
    rw [ih (m ++ [(kv.1, kv.2)]) ?fresh hnd.2]
    · simp
    case fresh =>
      intro kv' hkv' p hp
      rcases List.mem_append.mp hp with h1 | h1
      · exact h kv' (by simp [hkv']) p h1
      · have hp1 : p = (kv.1, kv.2) := by simpa using h1
        rw [hp1]
        intro he
        have hmem : kv'.1 ∈ rest.map Prod.fst := List.mem_map_of_mem Prod.fst hkv'
        rw [← he] at hmem
        exact hnd.1 hmem

theorem foldl_envLines (c : PConfig) (mt : Option (Option Str))
    (entries : List (Str × Str))
    (hk : ∀ kv ∈ entries, kv.1 ≠ [] ∧ ∀ x ∈ kv.1, isWordChar x = true) :
    List.foldl processLine ⟨c, some (s2l "env"), mt⟩ (entries.map envLine) =
      ⟨{ c with env := entries.foldl (fun acc kv => jsObjSet acc kv.1 kv.2) c.env },
        some (s2l "env"), mt⟩ := by
  induction entries generalizing c with
  | nil => rfl
  | cons kv rest ih =>
    rcases kv with ⟨k, v⟩
    obtain ⟨hne, hw⟩ := hk (k, v) (by simp)
    obtain ⟨kc, kt, hsh⟩ : ∃ kc kt, k = kc :: kt := by
      rcases hh : k with _ | ⟨kc, kt⟩
      · exact absurd hh hne
      · exact ⟨kc, kt, rfl⟩
    rw [List.map_cons, List.foldl_cons, processLine_envLine c mt v hsh hw,
        ih _ (fun kv' h' => hk kv' (by simp [h'])), List.foldl_cons]

theorem foldl_volLines (c : PConfig) (s : Option Str) (mt : Option (Option Str))
    (v : GenVolume) :
    List.foldl processLine ⟨c, s, mt⟩ (volLines v) =
      ⟨c, some (s2l "[mounts]"), mt⟩ := by
  rcases v with ⟨nm, mnt⟩
  simp only [volLines, List.foldl_cons, List.foldl_nil, processLine_hdr_mounts,
             processLine_sourceLine, processLine_destLine, processLine_blank]

theorem foldl_volBlocks (c : PConfig) (s : Option Str) (mt : Option (Option Str))
    (vols : List GenVolume) :
    ∃ s', List.foldl processLine ⟨c, s, mt⟩ ((vols.map volLines).flatten) =
      ⟨c, s', mt⟩ := by
  induction vols generalizing s with
  | nil => exact ⟨s, rfl⟩
  | cons v rest ih =>
    rw [List.map_cons, List.flatten_cons, List.foldl_append, foldl_volLines]
    exact ih _

/-- Folding the parser over the fixed leading blocks of the generated
descriptor, from the initial state up to the end of the `[scaling]`
section. -/
theorem foldl_stage (a r m dLine : Str) (mn mx : Nat)
    (hdock : ∀ (c : PConfig) (mt : Option (Option Str)),
      processLine ⟨c, some (s2l "build"), mt⟩ dLine = ⟨c, some (s2l "build"), mt⟩) :
    List.foldl processLine ⟨{}, none, none⟩
        ([appLine a, regionLine r, [], s2l "[build]", dLine, []]
          ++ servicesLines
          ++ [s2l "[vm]", memoryLine m, s2l "  cpu_kind = \"shared\"",
              s2l "  cpus = 1", [], s2l "[scaling]", minLine (.int (mn : Int)),
              maxLine (.int (mx : Int)), []]) =
      ⟨⟨some a, r, m, ⟨.int (mn : Int), .int (mx : Int)⟩, [], []⟩,
        some (s2l "scaling"), none⟩ := by
  have h1 : List.foldl processLine ⟨{}, none, none⟩
      [appLine a, regionLine r, [], s2l "[build]", dLine, []] =
      ⟨⟨some a, r, s2l "512mb", ⟨.int 1, .int 3⟩, [], []⟩,
        some (s2l "build"), none⟩ := by
    rw [List.foldl_cons, processLine_appLine]
    rw [List.foldl_cons, processLine_regionLine]
    rw [List.foldl_cons, processLine_blank]
    rw [List.foldl_cons, processLine_hdr_build]
    rw [List.foldl_cons, hdock]
    rw [List.foldl_cons, processLine_blank, List.foldl_nil]
  rw [List.foldl_append, List.foldl_append, h1, foldl_servicesLines]
  rw [List.foldl_cons, processLine_hdr_vm]
  rw [List.foldl_cons, processLine_memoryLine]
  rw [List.foldl_cons, processLine_cpuKind]
  rw [List.foldl_cons, processLine_cpus]
  rw [List.foldl_cons, processLine_blank]
  rw [List.foldl_cons, processLine_hdr_scaling]
  rw [List.foldl_cons, processLine_minLine]
  rw [List.foldl_cons, processLine_maxLine]
  rw [List.foldl_cons, processLine_blank, List.foldl_nil]

/-! ## Lemmas: the generated text is its line list joined by newlines -/

theorem lineJoin_append (xs ys : List Str) :
    lineJoin (xs ++ ys) = lineJoin xs ++ lineJoin ys := by
  induction xs with
  | nil => rfl
  | cons x xs ih => simp [lineJoin, ih]

theorem envEntryChunk_str (kv : Str × Str) :
    envEntryChunk (kv.1, JsVal.str kv.2) = envLine kv ++ ['\n'] := by
  simp [envEntryChunk, envLine, show (s2l "\"\n" : Str) = '"' :: '\n' :: [] from rfl,
        show (s2l "\"" : Str) = ['"'] from rfl]

theorem flatten_env_chunks (env : List (Str × Str)) :
    ((env.map (fun kv => (kv.1, JsVal.str kv.2))).map envEntryChunk).flatten =
      lineJoin (env.map envLine) := by
  induction env with
  | nil => rfl
  | cons kv rest ih =>
    simp only [List.map_cons, List.flatten_cons, envEntryChunk_str, ih, lineJoin]
    simp [List.append_assoc]

theorem volumeChunk_lines (v : GenVolume) :
    volumeChunk v = lineJoin (volLines v) := by
  rcases v with ⟨nm, mnt⟩
  simp [volumeChunk, volLines, sourceLine, destLine, lineJoin,
        show (s2l "[[mounts]]\n" : Str) = s2l "[[mounts]]" ++ ['\n'] from rfl,
        show (s2l "\"\n" : Str) = '"' :: '\n' :: [] from rfl,
        show (s2l "\"\n\n" : Str) = '"' :: '\n' :: '\n' :: [] from rfl,
        show (s2l "\"" : Str) = ['"'] from rfl]

theorem flatten_vol_chunks (vols : List GenVolume) :
    (vols.map volumeChunk).flatten = lineJoin ((vols.map volLines).flatten) := by
  induction vols with
  | nil => rfl
  | cons v rest ih =>
    simp only [List.map_cons, List.flatten_cons, volumeChunk_lines, ih,
               lineJoin_append]

/-- The generated descriptor is its line list joined with newlines and then
trimmed, once the configuration fields are pinned down. -/
theorem generateFlyToml_lines (cfg : GenConfig) (a r m : Str) (mn mx : Nat)
    (env : List (Str × Str)) (vols : List GenVolume) (dLine : Str)
    (ha : cfg.app = some a) (ha0 : a ≠ [])
    (hr : cfg.region = some r) (hm : cfg.memory = some m)
    (hi : cfg.instances = some ⟨.int (mn : Int), .int (mx : Int)⟩)
    (he : cfg.env = some (env.map (fun kv => (kv.1, JsVal.str kv.2))))
    (hv : cfg.volumes = some vols)
    (hd : (if jsTruthyStr (cfg.build.getD {}).dockerfile then
            s2l "  dockerfile = \"" ++ (cfg.build.getD {}).dockerfile.getD [] ++
              s2l "\"\n"
          else s2l "  dockerfile = \".nuxfly/Dockerfile\"\n") = dLine ++ ['\n']) :
    generateFlyToml cfg = trim (lineJoin (genLines a r m dLine
      (.int (mn : Int)) (.int (mx : Int)) env vols)) := by
  have htru : jsTruthyStr (some a) = true := by
    simp [jsTruthyStr, List.isEmpty_eq_true, ha0]
  simp only [generateFlyToml, ha, hr, hm, hi, he, hv, Option.getD_some, htru,
             if_true]
  refine congrArg trim ?_
  rw [hd]
  rw [show ((env.map (fun kv => (kv.1, JsVal.str kv.2))).map envEntryChunk).flatten =
        lineJoin (env.map envLine) from flatten_env_chunks env,
      show (vols.map volumeChunk).flatten =
        lineJoin ((vols.map volLines).flatten) from flatten_vol_chunks vols]
  by_cases henv : env = [] <;> by_cases hvols : vols = [] <;>
    simp [genLines, appLine, regionLine, memoryLine, minLine, maxLine,
          servicesLines, lineJoin, lineJoin_append, henv, hvols,
          show (s2l "\"\n" : Str) = '"' :: '\n' :: [] from rfl,
          show (s2l "\"\n\n" : Str) = '"' :: '\n' :: '\n' :: [] from rfl,
          show (s2l "\"" : Str) = ['"'] from rfl,
          show (s2l "\n" : Str) = ['\n'] from rfl,
          show (s2l "\n\n" : Str) = ['\n', '\n'] from rfl,
          show (s2l "[build]\n" : Str) = s2l "[build]" ++ ['\n'] from rfl,
          show (s2l "[[services]]\n" : Str) = s2l "[[services]]" ++ ['\n'] from rfl,
          show (s2l "  protocol = \"tcp\"\n" : Str) =
            s2l "  protocol = \"tcp\"" ++ ['\n'] from rfl,
          show (s2l "  internal_port = 3000\n" : Str) =
            s2l "  internal_port = 3000" ++ ['\n'] from rfl,
          show (s2l "  processes = [\"app\"]\n\n" : Str) =
            s2l "  processes = [\"app\"]" ++ ['\n', '\n'] from rfl,
          show (s2l "  [[services.ports]]\n" : Str) =
            s2l "  [[services.ports]]" ++ ['\n'] from rfl,
          show (s2l "    port = 80\n" : Str) = s2l "    port = 80" ++ ['\n'] from rfl,
          show (s2l "    handlers = [\"http\"]\n" : Str) =
            s2l "    handlers = [\"http\"]" ++ ['\n'] from rfl,
          show (s2l "    force_https = true\n\n" : Str) =
            s2l "    force_https = true" ++ ['\n', '\n'] from rfl,
          show (s2l "    port = 443\n" : Str) = s2l "    port = 443" ++ ['\n'] from rfl,
          show (s2l "    handlers = [\"tls\", \"http\"]\n\n" : Str) =
            s2l "    handlers = [\"tls\", \"http\"]" ++ ['\n', '\n'] from rfl,
          show (s2l "  [services.http_checks]\n" : Str) =
            s2l "  [services.http_checks]" ++ ['\n'] from rfl,
          show (s2l "    [services.http_checks.health]\n" : Str) =
            s2l "    [services.http_checks.health]" ++ ['\n'] from rfl,
          show (s2l "      grace_period = \"5s\"\n" : Str) =
            s2l "      grace_period = \"5s\"" ++ ['\n'] from rfl,
          show (s2l "      interval = \"10s\"\n" : Str) =
            s2l "      interval = \"10s\"" ++ ['\n'] from rfl,
          show (s2l "      method = \"GET\"\n" : Str) =
            s2l "      method = \"GET\"" ++ ['\n'] from rfl,
          show (s2l "      path = \"/\"\n" : Str) =
            s2l "      path = \"/\"" ++ ['\n'] from rfl,
          show (s2l "      timeout = \"5s\"\n\n" : Str) =
            s2l "      timeout = \"5s\"" ++ ['\n', '\n'] from rfl,
          show (s2l "[[processes]]\n" : Str) = s2l "[[processes]]" ++ ['\n'] from rfl,
          show (s2l "  name = \"app\"\n" : Str) =
            s2l "  name = \"app\"" ++ ['\n'] from rfl,
          show (s2l "  entrypoint = [\"npm\", \"start\"]\n\n" : Str) =
            s2l "  entrypoint = [\"npm\", \"start\"]" ++ ['\n', '\n'] from rfl,
          show (s2l "[vm]\n" : Str) = s2l "[vm]" ++ ['\n'] from rfl,
          show (s2l "  cpu_kind = \"shared\"\n" : Str) =
            s2l "  cpu_kind = \"shared\"" ++ ['\n'] from rfl,
          show (s2l "  cpus = 1\n\n" : Str) = s2l "  cpus = 1" ++ ['\n', '\n'] from rfl,
          show (s2l "[scaling]\n" : Str) = s2l "[scaling]" ++ ['\n'] from rfl,
          show (s2l "[env]\n" : Str) = s2l "[env]" ++ ['\n'] from rfl]

/-! ## Lemmas: shapes and newline-freeness of the emitted lines -/

theorem appLine_cons (a : Str) :
    appLine a = 'a' :: ((s2l "pp = \"" ++ a) ++ ['"']) := by
  simp [appLine, show (s2l "app = \"" : Str) = 'a' :: s2l "pp = \"" from rfl,
        show (s2l "\"" : Str) = ['"'] from rfl]

theorem maxLine_concat {mx : Nat} {ds : Str} {dl : Char}
    (hds : natToStr mx = ds ++ [dl]) :
    maxLine (.int (mx : Int)) = (s2l "  max_machines_running = " ++ ds) ++ [dl] := by
  simp [maxLine, jsNumToStr_natCast, hds]

theorem envLine_concat (kv : Str × Str) :
    envLine kv = (s2l "  " ++ kv.1 ++ s2l " = \"" ++ kv.2) ++ ['"'] := by
  simp [envLine, show (s2l "\"" : Str) = ['"'] from rfl]

theorem destLine_concat (mnt : Str) :
    destLine mnt = (s2l "  destination = \"" ++ mnt) ++ ['"'] := by
  simp [destLine, show (s2l "\"" : Str) = ['"'] from rfl]

theorem noNL_appLine {a : Str} (h : '\n' ∉ a) : '\n' ∉ appLine a := by
  simp only [appLine, List.mem_append]
  rintro ((h1 | h1) | h1)
  · exact absurd h1 (by decide)
  · exact h h1
  · exact absurd h1 (by decide)

theorem noNL_regionLine {r : Str} (h : '\n' ∉ r) : '\n' ∉ regionLine r := by
  simp only [regionLine, List.mem_append]
  rintro ((h1 | h1) | h1)
  · exact absurd h1 (by decide)
  · exact h h1
  · exact absurd h1 (by decide)

theorem noNL_memoryLine {m : Str} (h : '\n' ∉ m) : '\n' ∉ memoryLine m := by
  simp only [memoryLine, List.mem_append]
  rintro ((h1 | h1) | h1)
  · exact absurd h1 (by decide)
  · exact h h1
  · exact absurd h1 (by decide)

theorem noNL_dockerLine {d : Str} (h : '\n' ∉ d) : '\n' ∉ dockerLine d := by
  simp only [dockerLine, List.mem_append]
  rintro ((h1 | h1) | h1)
  · exact absurd h1 (by decide)
  · exact h h1
  · exact absurd h1 (by decide)

theorem noNL_sourceLine {nm : Str} (h : '\n' ∉ nm) : '\n' ∉ sourceLine nm := by
  simp only [sourceLine, List.mem_append]
  rintro ((h1 | h1) | h1)
  · exact absurd h1 (by decide)
  · exact h h1
  · exact absurd h1 (by decide)

theorem noNL_destLine {mnt : Str} (h : '\n' ∉ mnt) : '\n' ∉ destLine mnt := by
  simp only [destLine, List.mem_append]
  rintro ((h1 | h1) | h1)
  · exact absurd h1 (by decide)
  · exact h h1
  · exact absurd h1 (by decide)

theorem noNL_envLine {kv : Str × Str} (hk : '\n' ∉ kv.1) (hv : '\n' ∉ kv.2) :
    '\n' ∉ envLine kv := by
  simp only [envLine, List.mem_append]
  rintro ((((h1 | h1) | h1) | h1) | h1)
  · exact absurd h1 (by decide)
  · exact hk h1
  · exact absurd h1 (by decide)
  · exact hv h1
  · exact absurd h1 (by decide)

theorem noNL_minLine (mn : Nat) : '\n' ∉ minLine (.int (mn : Int)) := by
  simp only [minLine, jsNumToStr_natCast, List.mem_append]
  rintro (h1 | h1)
  · exact absurd h1 (by decide)
  · exact natToStr_no_nl mn h1

theorem noNL_maxLine (mx : Nat) : '\n' ∉ maxLine (.int (mx : Int)) := by
  simp only [maxLine, jsNumToStr_natCast, List.mem_append]
  rintro (h1 | h1)
  · exact absurd h1 (by decide)
  · exact natToStr_no_nl mx h1

theorem noNL_servicesLines : ∀ l ∈ servicesLines, '\n' ∉ l := by decide

/-- No individual line of the generated descriptor contains a newline. -/
theorem genLines_no_nl (a r m dLine : Str) (mn mx : Nat)
    (env : List (Str × Str)) (vols : List GenVolume)
    (hanl : '\n' ∉ a) (hrnl : '\n' ∉ r) (hmnl : '\n' ∉ m) (hdnl : '\n' ∉ dLine)
    (hek : ∀ kv ∈ env, kv.1 ≠ [] ∧ ∀ x ∈ kv.1, isWordChar x = true)
    (hev : ∀ kv ∈ env, '\n' ∉ kv.2)
    (hvnl : ∀ v ∈ vols, '\n' ∉ v.name ∧ '\n' ∉ v.mount) :
    ∀ l ∈ genLines a r m dLine (.int (mn : Int)) (.int (mx : Int)) env vols,
      '\n' ∉ l := by
  have henvpart : ∀ l ∈ (if env = [] then []
      else s2l "[env]" :: (env.map envLine ++ [[]])), '\n' ∉ l := by
    split
    · intro l hl; cases hl
    · intro l hl
      rcases List.mem_cons.mp hl with h | h
      · subst h; decide
      · rcases List.mem_append.mp h with h | h
        · obtain ⟨kv, hkv, rfl⟩ := List.mem_map.mp h
          refine noNL_envLine (fun hmem => ?_) (hev kv hkv)
          exact absurd ((hek kv hkv).2 '\n' hmem) (by decide)
        · have hnil : l = [] := by simpa using h
          subst hnil; simp
  have hvolpart : ∀ l ∈ (vols.map volLines).flatten, '\n' ∉ l := by
    intro l hl
    obtain ⟨b, hb, hlb⟩ := List.mem_flatten.mp hl
    obtain ⟨v, hv', rfl⟩ := List.mem_map.mp hb
    have hvn := hvnl v hv'
    simp only [volLines, List.mem_cons, List.mem_singleton] at hlb
    rcases hlb with rfl | rfl | rfl | h
    · decide
    · exact noNL_sourceLine hvn.1
    · exact noNL_destLine hvn.2
    · have hnil : l = [] := by simpa using h
      subst hnil; simp
  intro l hl
  simp only [genLines] at hl
  rcases List.mem_append.mp hl with h | hV
  swap
  · exact hvolpart l hV
  rcases List.mem_append.mp h with h | hE
  swap
  · exact henvpart l hE
  rcases List.mem_append.mp h with h | h9
  swap
  · simp only [List.mem_cons] at h9
    rcases h9 with rfl | rfl | rfl | rfl | rfl | rfl | rfl | rfl | h
    · decide
    · exact noNL_memoryLine hmnl
    · decide
    · decide
    · simp
    · decide
    · exact noNL_minLine mn
    · exact noNL_maxLine mx
    · have hnil : l = [] := by simpa using h
      subst hnil; simp
  rcases List.mem_append.mp h with h6 | hs
  swap
  · exact noNL_servicesLines l hs
  · simp only [List.mem_cons] at h6
    rcases h6 with rfl | rfl | rfl | rfl | rfl | h
    · exact noNL_appLine hanl
    · exact noNL_regionLine hrnl
    · simp
    · decide
    · exact hdnl
    · have hnil : l = [] := by simpa using h
      subst hnil; simp

/-! ## Lemmas: splitting and trimming the joined line list -/

theorem jsSplit_lineJoin {F : List Str} (L : Str) (hF : ∀ l ∈ F, '\n' ∉ l)
    (hL : '\n' ∉ L) : jsSplit '\n' (lineJoin F ++ L) = F ++ [L] := by
  induction F with
  | nil => simpa [lineJoin] using jsSplit_eq_single hL
  | cons f F ih =>
    have h1 : '\n' ∉ f := hF f (by simp)
    rw [lineJoin, show (f ++ '\n' :: lineJoin F) ++ L =
          f ++ '\n' :: (lineJoin F ++ L) from by simp,
        jsSplit_append_sep _ h1, ih (fun l hl => hF l (by simp [hl]))]
    rfl

theorem trim_lineJoin_shape {c : Char} (f0 : Str) (F : List Str) (x : Str)
    {d : Char} (hc : isWs c = false) (hd : isWs d = false) :
    trim (lineJoin ((c :: f0) :: (F ++ [x ++ [d], []]))) =
      lineJoin ((c :: f0) :: F) ++ (x ++ [d]) := by
  have h1 : lineJoin ((c :: f0) :: (F ++ [x ++ [d], []])) =
      c :: (f0 ++ '\n' :: (lineJoin F ++ ((x ++ [d]) ++ '\n' :: '\n' :: []))) := by
    simp [lineJoin, lineJoin_append]
  rw [h1, trim_eq_rtrim_cons hc,
      show c :: (f0 ++ '\n' :: (lineJoin F ++ ((x ++ [d]) ++ '\n' :: '\n' :: []))) =
        (((c :: (f0 ++ '\n' :: lineJoin F)) ++ x) ++ [d]) ++ ['\n', '\n'] from by
          simp,
      rtrim_ws_app (by decide), rtrim_last hd]
  simp [lineJoin]

/-- Parsing the trimmed joined lines equals folding the parser over the raw
line list, when the first line starts with a non-space character and the
last non-blank line ends with one. -/
theorem parse_trim_lines {c0 : Char} {f0 : Str} (F : List Str) (x : Str)
    {d : Char} (hc : isWs c0 = false) (hd : isWs d = false)
    (hF : ∀ l ∈ (c0 :: f0) :: F, '\n' ∉ l) (hL : '\n' ∉ x ++ [d]) :
    parseFlyToml (trim (lineJoin ((c0 :: f0) :: (F ++ [x ++ [d], []])))) =
      (List.foldl processLine ⟨{}, none, none⟩
        ((c0 :: f0) :: (F ++ [x ++ [d], []]))).cfg := by
  have foldl_snoc_blank : ∀ (st : PState) (A : List Str),
      List.foldl processLine st (A ++ [[]]) = List.foldl processLine st A := by
    intro st A
    rw [List.foldl_append, List.foldl_cons, processLine_blank, List.foldl_nil]
  rw [trim_lineJoin_shape f0 F x hc hd]
  unfold parseFlyToml
  rw [jsSplit_lineJoin (x ++ [d]) hF hL]
  rw [show (c0 :: f0) :: (F ++ [x ++ [d], []]) =
        (((c0 :: f0) :: F) ++ [x ++ [d]]) ++ [[]] from by simp,
      foldl_snoc_blank]

/-- Folding the parser over the whole generated line list recovers the
scalar fields and the environment and never recovers a volume. -/
theorem foldl_genLines (a r m dLine : Str) (mn mx : Nat)
    (env : List (Str × Str)) (vols : List GenVolume)
    (hdock : ∀ (c : PConfig) (mt : Option (Option Str)),
      processLine ⟨c, some (s2l "build"), mt⟩ dLine = ⟨c, some (s2l "build"), mt⟩)
    (hek : ∀ kv ∈ env, kv.1 ≠ [] ∧ ∀ x ∈ kv.1, isWordChar x = true)
    (hend : (env.map Prod.fst).Nodup) :
    (List.foldl processLine ⟨{}, none, none⟩
        (genLines a r m dLine (.int (mn : Int)) (.int (mx : Int)) env vols)).cfg =
      ⟨some a, r, m, ⟨.int (mn : Int), .int (mx : Int)⟩, env, []⟩ := by
  have hassoc : genLines a r m dLine (.int (mn : Int)) (.int (mx : Int)) env vols =
      ([appLine a, regionLine r, [], s2l "[build]", dLine, []]
        ++ servicesLines
        ++ [s2l "[vm]", memoryLine m, s2l "  cpu_kind = \"shared\"",
            s2l "  cpus = 1", [], s2l "[scaling]", minLine (.int (mn : Int)),
            maxLine (.int (mx : Int)), []])
      ++ ((if env = [] then [] else s2l "[env]" :: (env.map envLine ++ [[]]))
          ++ (vols.map volLines).flatten) := by
    simp [genLines]
  rw [hassoc, List.foldl_append, foldl_stage a r m dLine mn mx hdock,
      List.foldl_append]
  by_cases henv : env = []
  · subst henv
    rw [if_pos rfl, List.foldl_nil]
    obtain ⟨s', hs'⟩ := foldl_volBlocks
      ⟨some a, r, m, ⟨.int (mn : Int), .int (mx : Int)⟩, [], []⟩
      (some (s2l "scaling")) none vols
    rw [hs']
  · rw [if_neg henv, List.foldl_cons, processLine_hdr_env, List.foldl_append,
        foldl_envLines _ _ env hek, List.foldl_cons, processLine_blank,
        List.foldl_nil]
    rw [foldl_jsObjSet_fresh env [] (fun kv _ p hp => absurd hp (by simp)) hend]
    obtain ⟨s', hs'⟩ := foldl_volBlocks
      ⟨some a, r, m, ⟨.int (mn : Int), .int (mx : Int)⟩, env, []⟩
      (some (s2l "env")) none vols
    simp only [List.nil_append]
    rw [hs']

theorem mem_lines_of_mem_front {l h : Str} {F tail : List Str}
    (hl : l ∈ h :: F) : l ∈ h :: (F ++ tail) := by
  rcases List.mem_cons.mp hl with h1 | h1
  · exact List.mem_cons.mpr (Or.inl h1)
  · exact List.mem_cons.mpr (Or.inr (List.mem_append_left _ h1))

/-- Parsing the trimmed generated text equals folding the parser over the
raw generated line list. -/
theorem parse_genLines (a r m dLine : Str) (mn mx : Nat)
    (env : List (Str × Str)) (vols : List GenVolume)
    (hanl : '\n' ∉ a) (hrnl : '\n' ∉ r) (hmnl : '\n' ∉ m) (hdnl : '\n' ∉ dLine)
    (hek : ∀ kv ∈ env, kv.1 ≠ [] ∧ ∀ x ∈ kv.1, isWordChar x = true)
    (hev : ∀ kv ∈ env, '\n' ∉ kv.2)
    (hvnl : ∀ v ∈ vols, '\n' ∉ v.name ∧ '\n' ∉ v.mount) :
    parseFlyToml (trim (lineJoin (genLines a r m dLine (.int (mn : Int))
        (.int (mx : Int)) env vols))) =
      (List.foldl processLine ⟨{}, none, none⟩
        (genLines a r m dLine (.int (mn : Int)) (.int (mx : Int)) env vols)).cfg := by
  have hall := genLines_no_nl a r m dLine mn mx env vols hanl hrnl hmnl hdnl
    hek hev hvnl
  rcases List.eq_nil_or_concat vols with hvols | ⟨vinit, vlast, hvols'⟩
  case inr =>
    have hvols : vols = vinit ++ [vlast] := by
      rw [hvols', List.concat_eq_append]
    obtain ⟨B, heq⟩ : ∃ B,
        genLines a r m dLine (.int (mn : Int)) (.int (mx : Int)) env vols =
        ('a' :: ((s2l "pp = \"" ++ a) ++ ['"'])) ::
          (B ++ [(s2l "  destination = \"" ++ vlast.mount) ++ ['"'], []]) :=
      ⟨[regionLine r, [], s2l "[build]", dLine, []]
        ++ servicesLines
        ++ [s2l "[vm]", memoryLine m, s2l "  cpu_kind = \"shared\"",
            s2l "  cpus = 1", [], s2l "[scaling]", minLine (.int (mn : Int)),
            maxLine (.int (mx : Int)), []]
        ++ (if env = [] then [] else s2l "[env]" :: (env.map envLine ++ [[]]))
        ++ (vinit.map volLines).flatten
        ++ [s2l "[[mounts]]", sourceLine vlast.name],
       by simp [genLines, appLine_cons, hvols, volLines, destLine_concat]⟩
    have hLmem : ((s2l "  destination = \"" ++ vlast.mount) ++ ['"']) ∈
        genLines a r m dLine (.int (mn : Int)) (.int (mx : Int)) env vols := by
      rw [heq]; simp
    have hFmem : ∀ l ∈ ('a' :: ((s2l "pp = \"" ++ a) ++ ['"'])) :: B, '\n' ∉ l := by
      intro l hl
      refine hall l ?_
      rw [heq]
      exact mem_lines_of_mem_front hl
    rw [heq, parse_trim_lines B _ (by decide) (by decide) hFmem (hall _ hLmem)]
  case inl =>
    rcases List.eq_nil_or_concat env with henv | ⟨einit, elast, henv'⟩
    case inr =>
      have henv : env = einit ++ [elast] := by
        rw [henv', List.concat_eq_append]
      obtain ⟨B, heq⟩ : ∃ B,
          genLines a r m dLine (.int (mn : Int)) (.int (mx : Int)) env vols =
          ('a' :: ((s2l "pp = \"" ++ a) ++ ['"'])) ::
            (B ++ [(s2l "  " ++ elast.1 ++ s2l " = \"" ++ elast.2) ++ ['"'], []]) :=
        ⟨[regionLine r, [], s2l "[build]", dLine, []]
          ++ servicesLines
          ++ [s2l "[vm]", memoryLine m, s2l "  cpu_kind = \"shared\"",
              s2l "  cpus = 1", [], s2l "[scaling]", minLine (.int (mn : Int)),
              maxLine (.int (mx : Int)), []]
          ++ (s2l "[env]" :: einit.map envLine),
         by simp [genLines, appLine_cons, henv, hvols, envLine_concat]⟩
      have hLmem : ((s2l "  " ++ elast.1 ++ s2l " = \"" ++ elast.2) ++ ['"']) ∈
          genLines a r m dLine (.int (mn : Int)) (.int (mx : Int)) env vols := by
        rw [heq]; simp
      have hFmem : ∀ l ∈ ('a' :: ((s2l "pp = \"" ++ a) ++ ['"'])) :: B, '\n' ∉ l := by
        intro l hl
        refine hall l ?_
        rw [heq]
        exact mem_lines_of_mem_front hl
      rw [heq, parse_trim_lines B _ (by decide) (by decide) hFmem (hall _ hLmem)]
    case inl =>
      obtain ⟨ds, dl, hds⟩ : ∃ ds dl, natToStr mx = ds ++ [dl] := by
        rcases List.eq_nil_or_concat (natToStr mx) with h | ⟨ds, dl, h⟩
        · exact absurd h (natToStr_ne_nil mx)
        · exact ⟨ds, dl, by rw [h, List.concat_eq_append]⟩
      have hdl : isWs dl = false := by
        obtain ⟨d, hd, rfl⟩ := natToStr_chars dl (by rw [hds]; simp)
        exact (char_digit_facts hd).1
      obtain ⟨B, heq⟩ : ∃ B,
          genLines a r m dLine (.int (mn : Int)) (.int (mx : Int)) env vols =
          ('a' :: ((s2l "pp = \"" ++ a) ++ ['"'])) ::
            (B ++ [(s2l "  max_machines_running = " ++ ds) ++ [dl], []]) :=
        ⟨[regionLine r, [], s2l "[build]", dLine, []]
          ++ servicesLines
          ++ [s2l "[vm]", memoryLine m, s2l "  cpu_kind = \"shared\"",
              s2l "  cpus = 1", [], s2l "[scaling]", minLine (.int (mn : Int))],
         by simp [genLines, appLine_cons, henv, hvols, maxLine_concat hds]⟩
      have hLmem : ((s2l "  max_machines_running = " ++ ds) ++ [dl]) ∈
          genLines a r m dLine (.int (mn : Int)) (.int (mx : Int)) env vols := by
        rw [heq]; simp
      have hFmem : ∀ l ∈ ('a' :: ((s2l "pp = \"" ++ a) ++ ['"'])) :: B, '\n' ∉ l := by
        intro l hl
        refine hall l ?_
        rw [heq]
        exact mem_lines_of_mem_front hl
      rw [heq, parse_trim_lines B _ (by decide) hdl hFmem (hall _ hLmem)]

/-- C1 (counterexample): the generate→parse round trip does NOT return the
volume list unchanged.  `parseFlyToml` compares `currentSection` against the
spelling `[[mounts]]`, but sections are stored after `slice(1, -1)`, which
turns the header `[[mounts]]` into `[mounts]`; the `source`/`destination`
keys are therefore never dispatched and every generated volume is lost.  A
configuration with one volume (and otherwise ordinary fields) parses back
with an empty volume list. -/
theorem generateFlyToml_roundtrip_counterexample :
    ∃ cfg : GenConfig,
      cfg.volumes = some [{ name := s2l "data", mount := s2l "/data" }] ∧
      (parseFlyToml (generateFlyToml cfg)).app = some (s2l "a") ∧
      (parseFlyToml (generateFlyToml cfg)).volumes = [] := by
  have key : parseFlyToml (generateFlyToml
      { app := some (s2l "a"), region := some (s2l "iad"),
        memory := some (s2l "1gb"),
        instances := some { min := .int 1, max := .int 2 }, env := some [],
        volumes := some [{ name := s2l "data", mount := s2l "/data" }],
        build := none }) =
      { app := some (s2l "a"), region := s2l "iad", memory := s2l "1gb",
        instances := { min := .int 1, max := .int 2 }, env := [],
        volumes := [] } := by
    rw [generateFlyToml_lines
          { app := some (s2l "a"), region := some (s2l "iad"),
            memory := some (s2l "1gb"),
            instances := some { min := .int 1, max := .int 2 }, env := some [],
            volumes := some [{ name := s2l "data", mount := s2l "/data" }],
            build := none }
          (s2l "a") (s2l "iad") (s2l "1gb") 1 2 []
          [{ name := s2l "data", mount := s2l "/data" }]
          (s2l "  dockerfile = \".nuxfly/Dockerfile\"") rfl (by decide) rfl rfl
          rfl rfl rfl rfl,
        parse_genLines _ _ _ _ _ _ _ _ (by decide) (by decide) (by decide)
          (by decide) (by decide) (by decide) (by decide),
        foldl_genLines _ _ _ _ _ _ _ _
          (fun c mt => processLine_dockerDefault c mt) (by decide) (by decide)]
    rfl
  refine ⟨{ app := some (s2l "a"), region := some (s2l "iad"),
            memory := some (s2l "1gb"),
            instances := some { min := .int 1, max := .int 2 },
            env := some [],
            volumes := some [{ name := s2l "data", mount := s2l "/data" }],
            build := none }, rfl, ?_, ?_⟩
  · rw [key]
  · rw [key]

/-- C1 (amended): for every configuration whose fields are well-formed
strings (no embedded newlines; a present, non-empty app name; word-character
environment keys without duplicates; string-valued environment entries;
natural-number instance bounds), parsing the descriptor text produced by
`generateFlyToml` with `parseFlyToml` recovers `app`, `region`, `memory`,
`instances.min`, `instances.max` and `env` unchanged — but the parsed
`volumes` list is always empty, so the volume list is NOT recovered
(see the counterexample). -/
theorem generateFlyToml_parseFlyToml_roundtrip (cfg : GenConfig) (a r m : Str)
    (mn mx : Nat) (env : List (Str × Str)) (vols : List GenVolume)
    (ha : cfg.app = some a) (ha0 : a ≠ []) (hanl : '\n' ∉ a)
    (hr : cfg.region = some r) (hrnl : '\n' ∉ r)
    (hm : cfg.memory = some m) (hmnl : '\n' ∉ m)
    (hi : cfg.instances = some ⟨.int (mn : Int), .int (mx : Int)⟩)
    (he : cfg.env = some (env.map (fun kv => (kv.1, JsVal.str kv.2))))
    (hek : ∀ kv ∈ env, kv.1 ≠ [] ∧ ∀ x ∈ kv.1, isWordChar x = true)
    (hev : ∀ kv ∈ env, '\n' ∉ kv.2)
    (hend : (env.map Prod.fst).Nodup)
    (hv : cfg.volumes = some vols)
    (hvnl : ∀ v ∈ vols, '\n' ∉ v.name ∧ '\n' ∉ v.mount)
    (hbnl : '\n' ∉ (cfg.build.getD {}).dockerfile.getD []) :
    parseFlyToml (generateFlyToml cfg) =
      { app := some a, region := r, memory := m,
        instances := { min := .int (mn : Int), max := .int (mx : Int) },
        env := env, volumes := [] } := by
  obtain ⟨dLine, hd, hdnl, hdock⟩ : ∃ dLine,
      (if jsTruthyStr (cfg.build.getD {}).dockerfile then
        s2l "  dockerfile = \"" ++ (cfg.build.getD {}).dockerfile.getD [] ++
          s2l "\"\n"
      else s2l "  dockerfile = \".nuxfly/Dockerfile\"\n") = dLine ++ ['\n'] ∧
      '\n' ∉ dLine ∧
      ∀ (c : PConfig) (mt : Option (Option Str)),
        processLine ⟨c, some (s2l "build"), mt⟩ dLine =
          ⟨c, some (s2l "build"), mt⟩ := by
    by_cases hb : jsTruthyStr (cfg.build.getD {}).dockerfile = true
    · refine ⟨dockerLine ((cfg.build.getD {}).dockerfile.getD []), ?_,
        noNL_dockerLine hbnl, fun c mt => processLine_dockerLine c mt _⟩
      rw [if_pos hb]
      simp [dockerLine, show (s2l "\"\n" : Str) = '"' :: '\n' :: [] from rfl,
            show (s2l "\"" : Str) = ['"'] from rfl]
    · refine ⟨s2l "  dockerfile = \".nuxfly/Dockerfile\"", ?_, by decide,
        fun c mt => processLine_dockerDefault c mt⟩
      rw [if_neg hb]
      rfl
  rw [generateFlyToml_lines cfg a r m mn mx env vols dLine ha ha0 hr hm hi he hv hd,
      parse_genLines a r m dLine mn mx env vols hanl hrnl hmnl hdnl hek hev hvnl,
      foldl_genLines a r m dLine mn mx env vols hdock hek hend]

/-- C1 witness: a concrete configuration with an app name, region, memory,
instance bounds, one environment entry and one volume; the round trip
recovers everything except the volume, which is dropped. -/
theorem generateFlyToml_parseFlyToml_roundtrip_witness :
    parseFlyToml (generateFlyToml
      { app := some (s2l "myapp"), region := some (s2l "iad"),
        memory := some (s2l "1gb"),
        instances := some { min := .int 2, max := .int 5 },
        env := some [(s2l "NODE_ENV", .str (s2l "production"))],
        volumes := some [{ name := s2l "data", mount := s2l "/data" }],
        build := none }) =
      { app := some (s2l "myapp"), region := s2l "iad", memory := s2l "1gb",
        instances := { min := .int 2, max := .int 5 },
        env := [(s2l "NODE_ENV", s2l "production")], volumes := [] } :=
  generateFlyToml_parseFlyToml_roundtrip _ (s2l "myapp") (s2l "iad") (s2l "1gb")
    2 5 [(s2l "NODE_ENV", s2l "production")]
    [{ name := s2l "data", mount := s2l "/data" }]
    rfl (by decide) (by decide) rfl (by decide) rfl (by decide) rfl rfl
    (by decide) (by decide) (by decide) rfl (by decide) (by decide)

end Nuxfly
